import Mathlib

/-!
Verification development for the `dfpyre` template builder
(`src/dfpyre/pyre.py`).

The Python module builds an ordered sequence of code blocks, assembles
them into a dictionary document, serialises the document with
`str(...)`, compresses it with `gzip` and encodes the result in base64.

Python values appearing in the assembled document are modelled by the
inductive `PyVal`; Python dictionaries are association lists that keep
insertion order (which is what `str(dict)` exposes).  Exceptions raised
by the Python code (`KeyError`, `IndexError`) are modelled by `Except
PyErr`.  The external `gzip` stage is kept abstract: theorems that need
it quantify over a compression/decompression pair together with the
round-trip law that the `gzip` library guarantees.
-/

namespace DFPyre

/-- Model of the Python values that occur in an assembled template
document: `None`, numbers, strings, lists and (insertion-ordered)
string-keyed dictionaries. -/
inductive PyVal : Type where
  | pyNone : PyVal
  | pyInt : Int → PyVal
  | pyStr : String → PyVal
  | pyList : List PyVal → PyVal
  | pyDict : List (String × PyVal) → PyVal

/-- First-match lookup in an insertion-ordered dictionary, i.e.
`d.get(key)` for the association lists standing in for Python dicts. -/
def lookupKey : List (String × PyVal) → String → Option PyVal
  | [], _ => none
  | (k, v) :: rest, key => if k = key then some v else lookupKey rest key

/-- Modelled from the spec: `dfpyre/items.py` is not part of the sources,
only its names (`num`, `text`, `var`, the `type`/`format` interface) are
used by `pyre.py`.  A `TypedValue` carries its type tag (one of the
`VARIABLE_TYPES` strings for recognised variants) and the
variant-specific payload, and renders itself into a slot-indexed wire
item via `format`. -/
structure TypedValue : Type where
  type : String
  data : List (String × PyVal)

/-- Modelled from the spec: the slot-aware rendering of a `TypedValue`
into its wire representation (`arg.format(slot)` in `pyre.py`). -/
def TypedValue.format (tv : TypedValue) (slot : Nat) : PyVal :=
  .pyDict [("item", .pyDict [("id", .pyStr tv.type), ("data", .pyDict tv.data)]),
           ("slot", .pyInt (slot : Int))]

/-- Modelled from the spec: the number variant constructor `num` of the
missing `items.py`.  Python's `int`/`float` payloads are modelled by
`Int`; the constructor merely wraps the payload. -/
def num (n : Int) : TypedValue := ⟨"num", [("name", .pyInt n)]⟩

/-- Modelled from the spec: the text variant constructor `text` of the
missing `items.py`. -/
def text (s : String) : TypedValue := ⟨"txt", [("name", .pyStr s)]⟩

/-- Modelled from the spec: the variable-reference constructor `var` of
the missing `items.py`, carrying a name and a scope tag. -/
def var (name : String) (scope : String) : TypedValue :=
  ⟨"var", [("name", .pyStr name), ("scope", .pyStr scope)]⟩

/-- `VARIABLE_TYPES` from `pyre.py`. -/
def VARIABLE_TYPES : List String :=
  ["txt", "num", "item", "loc", "var", "snd", "part", "pot", "g_val", "vec"]

/-- `TEMPLATE_STARTERS` from `pyre.py`. -/
def TEMPLATE_STARTERS : List String :=
  ["event", "entity_event", "func", "process"]

/-- The raw shapes a caller can pass to a variadic builder method:
numbers (`int`/`float`, modelled by `Int`), strings, and already-typed
values. -/
inductive RawVal : Type where
  | rInt : Int → RawVal
  | rStr : String → RawVal
  | rTyped : TypedValue → RawVal

/-- The Python exceptions the modelled code can raise:
`KeyError` (dict lookup of a missing key) and `IndexError`
(subscripting an empty string or list). -/
inductive PyErr : Type where
  | keyError : String → PyErr
  | indexError : PyErr
  deriving DecidableEq

/-- One step of `DFTemplate._convertDataTypes`: numbers become `num`
values; a string is subscripted at index 0 (an empty string raises
`IndexError`), a leading `'^'` makes it a back-reference resolved in
`definedVars` (`KeyError` when absent), any other string becomes a
`text` value; everything else passes through unchanged. -/
def convertOne (dv : List (String × TypedValue)) : RawVal → Except PyErr TypedValue
  | .rInt n => .ok (num n)
  | .rStr s =>
    match s.data with
    | [] => .error .indexError
    | c :: rest =>
      if c = '^' then
        match List.lookup (String.mk rest) dv with
        | some v => .ok v
        | none => .error (.keyError (String.mk rest))
      else .ok (text s)
  | .rTyped tv => .ok tv

/-- `DFTemplate._convertDataTypes`, mapping `convertOne` over the
argument tuple; the first raised exception aborts the conversion. -/
def convertDataTypes (dv : List (String × TypedValue)) (lst : List RawVal) :
    Except PyErr (List TypedValue) :=
  lst.mapM (convertOne dv)

/-- The `CodeBlock` record of `pyre.py`: a display name, the converted
argument tuple, the target selector and the category-specific `data`
dictionary. -/
structure CodeBlock : Type where
  name : String
  args : List TypedValue
  target : String
  data : List (String × PyVal)

/-- The `DFTemplate` builder state: the appended command sequence, the
most recently opened bracket flavor (`closebracket`, `None` initially)
and the `definedVars` mapping (most recent binding first). -/
structure DFTemplate : Type where
  commands : List CodeBlock
  closebracket : Option String
  definedVars : List (String × TypedValue)

/-- `DFTemplate.__init__`: empty command list, no open bracket, no
defined variables. -/
def DFTemplate.init : DFTemplate := ⟨[], none, []⟩

/-- `DFTemplate.clear`, which re-runs `__init__`. -/
def DFTemplate.clear (_t : DFTemplate) : DFTemplate := DFTemplate.init

/-- Append one command (`self.commands.append(cmd)`). -/
def DFTemplate.push (t : DFTemplate) (cmd : CodeBlock) : DFTemplate :=
  { t with commands := t.commands ++ [cmd] }

/-- `DFTemplate._openbracket`: append an open-bracket block and remember
its flavor in `closebracket`. -/
def DFTemplate.openbracket (t : DFTemplate) (btype : String) : DFTemplate :=
  { t with
    commands := t.commands ++
      [⟨"Bracket", [], "Default",
        [("id", .pyStr "bracket"), ("direct", .pyStr "open"), ("type", .pyStr btype)]⟩],
    closebracket := some btype }

/-- `DFTemplate.playerEvent`. -/
def DFTemplate.playerEvent (t : DFTemplate) (name : String) : DFTemplate :=
  t.push ⟨name, [], "Default",
    [("id", .pyStr "block"), ("block", .pyStr "event"), ("action", .pyStr name)]⟩

/-- `DFTemplate.entityEvent`. -/
def DFTemplate.entityEvent (t : DFTemplate) (name : String) : DFTemplate :=
  t.push ⟨name, [], "Default",
    [("id", .pyStr "block"), ("block", .pyStr "entity_event"), ("action", .pyStr name)]⟩

/-- `DFTemplate.function`. -/
def DFTemplate.function (t : DFTemplate) (name : String) : DFTemplate :=
  t.push ⟨"function", [], "Default",
    [("id", .pyStr "block"), ("block", .pyStr "func"), ("data", .pyStr name)]⟩

/-- `DFTemplate.process`. -/
def DFTemplate.process (t : DFTemplate) (name : String) : DFTemplate :=
  t.push ⟨"process", [], "Default",
    [("id", .pyStr "block"), ("block", .pyStr "process"), ("data", .pyStr name)]⟩

/-- `DFTemplate.startProcess`. -/
def DFTemplate.startProcess (t : DFTemplate) (name : String) : DFTemplate :=
  t.push ⟨"start_process", [], "Default",
    [("id", .pyStr "block"), ("block", .pyStr "start_process"), ("data", .pyStr name)]⟩

/-- `DFTemplate.setVariable`. -/
def DFTemplate.setVariable (t : DFTemplate) (name : String) (args : List RawVal) :
    Except PyErr DFTemplate := do
  let a ← convertDataTypes t.definedVars args
  pure (t.push ⟨name, a, "Default",
    [("id", .pyStr "block"), ("block", .pyStr "set_var"), ("action", .pyStr name)]⟩)

/-- `DFTemplate.callFunction`: one local-scope `setVariable` per
parameter (in mapping order), then the `call_func` block. -/
def DFTemplate.callFunction (t : DFTemplate) (name : String)
    (parameters : List (String × RawVal)) : Except PyErr DFTemplate := do
  let t' ← parameters.foldlM
    (fun acc kv => acc.setVariable "=" [.rTyped (var kv.1 "local"), kv.2]) t
  pure (t'.push ⟨"call_func", [], "Default",
    [("id", .pyStr "block"), ("block", .pyStr "call_func"), ("data", .pyStr name)]⟩)

/-- `DFTemplate.playerAction`. -/
def DFTemplate.playerAction (t : DFTemplate) (name : String) (args : List RawVal)
    (target : String) : Except PyErr DFTemplate := do
  let a ← convertDataTypes t.definedVars args
  pure (t.push ⟨name, a, target,
    [("id", .pyStr "block"), ("block", .pyStr "player_action"), ("action", .pyStr name)]⟩)

/-- `DFTemplate.gameAction`. -/
def DFTemplate.gameAction (t : DFTemplate) (name : String) (args : List RawVal) :
    Except PyErr DFTemplate := do
  let a ← convertDataTypes t.definedVars args
  pure (t.push ⟨name, a, "Default",
    [("id", .pyStr "block"), ("block", .pyStr "game_action"), ("action", .pyStr name)]⟩)

/-- `DFTemplate.entityAction`. -/
def DFTemplate.entityAction (t : DFTemplate) (name : String) (args : List RawVal) :
    Except PyErr DFTemplate := do
  let a ← convertDataTypes t.definedVars args
  pure (t.push ⟨name, a, "Default",
    [("id", .pyStr "block"), ("block", .pyStr "entity_action"), ("action", .pyStr name)]⟩)

/-- `DFTemplate.ifPlayer`: append the conditional block, then open a
normal-flavor bracket. -/
def DFTemplate.ifPlayer (t : DFTemplate) (name : String) (args : List RawVal)
    (target : String) : Except PyErr DFTemplate := do
  let a ← convertDataTypes t.definedVars args
  pure ((t.push ⟨name, a, target,
    [("id", .pyStr "block"), ("block", .pyStr "if_player"), ("action", .pyStr name)]⟩
    ).openbracket "norm")

/-- `DFTemplate.ifVariable`. -/
def DFTemplate.ifVariable (t : DFTemplate) (name : String) (args : List RawVal) :
    Except PyErr DFTemplate := do
  let a ← convertDataTypes t.definedVars args
  pure ((t.push ⟨name, a, "Default",
    [("id", .pyStr "block"), ("block", .pyStr "if_var"), ("action", .pyStr name)]⟩
    ).openbracket "norm")

/-- `DFTemplate.ifGame`. -/
def DFTemplate.ifGame (t : DFTemplate) (name : String) (args : List RawVal) :
    Except PyErr DFTemplate := do
  let a ← convertDataTypes t.definedVars args
  pure ((t.push ⟨name, a, "Default",
    [("id", .pyStr "block"), ("block", .pyStr "if_game"), ("action", .pyStr name)]⟩
    ).openbracket "norm")

/-- `DFTemplate.ifEntity`. -/
def DFTemplate.ifEntity (t : DFTemplate) (name : String) (args : List RawVal) :
    Except PyErr DFTemplate := do
  let a ← convertDataTypes t.definedVars args
  pure ((t.push ⟨name, a, "Default",
    [("id", .pyStr "block"), ("block", .pyStr "if_entity"), ("action", .pyStr name)]⟩
    ).openbracket "norm")

/-- `DFTemplate.else_`: appends the `else` block and opens a
normal-flavor bracket. -/
def DFTemplate.else_ (t : DFTemplate) : DFTemplate :=
  (t.push ⟨"else", [], "Default",
    [("id", .pyStr "block"), ("block", .pyStr "else")]⟩).openbracket "norm"

/-- `DFTemplate.repeat`: appends the repeat block (with the optional
`subAction` key) and opens a repeat-flavor bracket. -/
def DFTemplate.repeat (t : DFTemplate) (name : String) (args : List RawVal)
    (subAction : Option String) : Except PyErr DFTemplate := do
  let a ← convertDataTypes t.definedVars args
  let d := [("id", PyVal.pyStr "block"), ("block", PyVal.pyStr "repeat"),
            ("action", PyVal.pyStr name)]
  let d := match subAction with
    | none => d
    | some sa => d ++ [("subAction", PyVal.pyStr sa)]
  pure ((t.push ⟨name, a, "Default", d⟩).openbracket "repeat")

/-- The `type` value a close-bracket block carries: the remembered
flavor, or Python `None` when no bracket was ever opened. -/
def closeType : Option String → PyVal
  | none => .pyNone
  | some s => .pyStr s

/-- `DFTemplate.bracket`: converts (and discards) its arguments, then
appends a close-bracket block typed with the current `closebracket`
(which it does not change). -/
def DFTemplate.bracket (t : DFTemplate) (args : List RawVal) :
    Except PyErr DFTemplate := do
  let _ ← convertDataTypes t.definedVars args
  pure (t.push ⟨"Bracket", [], "Default",
    [("id", .pyStr "bracket"), ("direct", .pyStr "close"),
     ("type", closeType t.closebracket)]⟩)

/-- `DFTemplate.control`. -/
def DFTemplate.control (t : DFTemplate) (name : String) (args : List RawVal) :
    Except PyErr DFTemplate := do
  let a ← convertDataTypes t.definedVars args
  pure (t.push ⟨name, a, "Default",
    [("id", .pyStr "block"), ("block", .pyStr "control"), ("action", .pyStr name)]⟩)

/-- `DFTemplate.selectObject`. -/
def DFTemplate.selectObject (t : DFTemplate) (name : String) (args : List RawVal) :
    Except PyErr DFTemplate := do
  let a ← convertDataTypes t.definedVars args
  pure (t.push ⟨name, a, "Default",
    [("id", .pyStr "block"), ("block", .pyStr "select_obj"), ("action", .pyStr name)]⟩)

/-- `DFTemplate.return_`: one local `setVariable` per return value, then
`control('Return')`. -/
def DFTemplate.return_ (t : DFTemplate) (returndata : List (String × RawVal)) :
    Except PyErr DFTemplate := do
  let t' ← returndata.foldlM
    (fun acc kv => acc.setVariable "=" [.rTyped (var kv.1 "local"), kv.2]) t
  t'.control "Return" []

/-- `DFTemplate.define_`: optionally emit the initialising
`setVariable`, then record the binding in `definedVars` (the new
binding shadows any earlier one of the same name). -/
def DFTemplate.define_ (t : DFTemplate) (name : String) (value : RawVal)
    (scope : String) (createSetVar : Bool) : Except PyErr DFTemplate :=
  match (if createSetVar then t.setVariable "=" [.rTyped (var name scope), value]
         else pure t) with
  | .error e => .error e
  | .ok t' => .ok { t' with definedVars := (name, var name scope) :: t'.definedVars }

/-! ## Template assembly (`DFTemplate.build`)

The tag schema `data.json` is an external file (absent from the
sources); its shape is modelled from the spec: a table keyed by
block-category plus a reserved `extras` branch keyed by category alone.
`build` is therefore parameterised by the schema contents. -/

/-- Modelled from the spec: the contents of the external `data.json`
schema file.  `TAGDATA` is the dictionary whose `extras` key holds
`extras` and whose remaining keys are `table`; `TAGDATA_KEYS` is thus
`{extras} ∪ keys table` and `TAGDATA_EXTRAS_KEYS` is `keys extras`. -/
structure TagData : Type where
  extras : List (String × List PyVal)
  table : List (String × List (String × List PyVal))

/-- First-match lookup in a string-keyed association list. -/
def alookup {α : Type} : List (String × α) → String → Option α
  | [], _ => none
  | (k, v) :: rest, key => if k = key then some v else alookup rest key

/-- The tag lookup of `build` (lines 126-137 of `pyre.py`): check
`TAGDATA_EXTRAS_KEYS` first, then fall back to
`TAGDATA[blockType].get(cmd.name)` when `blockType` is a schema key.
`blockType` is `cmd.data.get('block')`, hence an `Option PyVal`; only a
string can match a key.  A failed action lookup only warns (the fuzzy
match suggestion is a side effect), yielding no tags. -/
def lookupTags (td : TagData) (blockType : Option PyVal) (name : String) :
    Option (List PyVal) :=
  match blockType with
  | some (.pyStr bt) =>
    match alookup td.extras bt with
    | some tags => some tags
    | none =>
      if bt = "extras" then alookup td.extras name
      else
        match alookup td.table bt with
        | some actions => alookup actions name
        | none => none
  | _ => none

/-- The item-rendering loop of `build` (lines 115-123): `slot` counts
every argument, but only arguments whose `type` is in `VARIABLE_TYPES`
are rendered and appended. -/
def renderItems (args : List TypedValue) : List PyVal :=
  (args.enum.filterMap fun p =>
    if p.2.type ∈ VARIABLE_TYPES then some (p.2.format p.1) else none)

/-- Python's `l[:stop]` slice for a possibly negative `stop`. -/
def pySlice {α : Type} (l : List α) (stop : Int) : List α :=
  if stop < 0 then l.take (l.length - stop.natAbs) else l.take stop.toNat

/-- The tag-attachment step of `build` (lines 138-142): when tags were
found, the items list is trimmed with `items[:26 - len(tags)]` — but
only when it already holds more than 27 entries — and the tags are
appended at the end. -/
def applyTags (tags? : Option (List PyVal)) (items : List PyVal) : List PyVal :=
  match tags? with
  | none => items
  | some tags =>
    (if items.length > 27 then pySlice items (26 - (tags.length : Int)) else items)
      ++ tags

/-- Decides `cmd.data.get('block') == 'event'` (line 109 of
`pyre.py`). -/
def isEventVal : Option PyVal → Bool
  | some (.pyStr s) => s == "event"
  | _ => false

/-- Assembly of one block dictionary by `build`: the `args`/`items`
entry first, then the keys of `cmd.data` in insertion order (the
re-assignment of `direct`/`type` at lines 104-106 rewrites existing
keys with their own values and is a no-op), then the `target` entry
when the block is not an `event` and the target differs from the
`Default` sentinel. -/
def buildBlock (td : TagData) (cmd : CodeBlock) : PyVal :=
  let items := applyTags (lookupTags td (lookupKey cmd.data "block") cmd.name)
    (renderItems cmd.args)
  let base := ("args", PyVal.pyDict [("items", PyVal.pyList items)]) :: cmd.data
  if !isEventVal (lookupKey cmd.data "block") && cmd.target != "Default" then
    .pyDict (base ++ [("target", .pyStr cmd.target)])
  else
    .pyDict base

/-- The full block list assembled by `build`. -/
def buildBlocks (td : TagData) (t : DFTemplate) : List PyVal :=
  t.commands.map (buildBlock td)

/-- The complete document `mainDict` assembled by `build`. -/
def mainDict (td : TagData) (t : DFTemplate) : PyVal :=
  .pyDict [("blocks", .pyList (buildBlocks td t))]

/-- The display-name derivation of `build` (lines 148-155):
`mainDict['blocks'][0]['block']` raises `IndexError` on an empty block
list and `KeyError` when the first block has no `block` key; a
non-starter category only warns and yields `'Unnamed'`; otherwise the
name is `block + '_' + action`, falling back to the block's `data`
entry when the `action` key is missing. -/
def deriveName (blocks : List PyVal) : Except PyErr String :=
  match blocks with
  | [] => .error .indexError
  | b :: _ =>
    let bd := match b with
      | .pyDict d => d
      | _ => []
    match lookupKey bd "block" with
    | none => .error (.keyError "block")
    | some (.pyStr s) =>
      if s ∈ TEMPLATE_STARTERS then
        match lookupKey bd "action" with
        | some (.pyStr a) => .ok (s ++ "_" ++ a)
        | _ =>
          match lookupKey bd "data" with
          | some (.pyStr d) => .ok d
          | _ => .error (.keyError "data")
      else .ok "Unnamed"
    | some _ => .ok "Unnamed"

/-! ## Serialisation: `str(mainDict)`, base64, `_compress`

`str(...)` on the assembled document prints Python literal syntax.
String escaping is modelled with the ASCII-printable convention: every
character outside printable ASCII is emitted as a `\xhh`, `\uhhhh` or
`\Uhhhhhhhh` escape (CPython keeps printable non-ASCII characters
literal; both conventions are read back by the same parser, and the
documents the builder produces are ASCII-dominated). -/

/-- The decimal digit character for `n < 10`. -/
def digitChar (n : Nat) : Char := Char.ofNat (48 + n)

/-- Fuelled digit expansion (most significant first); fuel `n + 1`
always suffices. -/
def natDigitsAux : Nat → Nat → List Char
  | 0, _ => []
  | f + 1, n =>
    if n < 10 then [digitChar n]
    else natDigitsAux f (n / 10) ++ [digitChar (n % 10)]

/-- Decimal rendering of a natural number, as `str` prints it. -/
def natDigits (n : Nat) : List Char := natDigitsAux (n + 1) n

/-- `str(int)`: decimal digits, `'-'`-prefixed for negatives. -/
def renderInt : Int → List Char
  | .ofNat n => natDigits n
  | .negSucc m => '-' :: natDigits (m + 1)

/-- Lowercase hex digit for `n < 16`. -/
def toHexChar (n : Nat) : Char :=
  if n < 10 then Char.ofNat (48 + n) else Char.ofNat (87 + n)

/-- Two lowercase hex digits of `n % 256`. -/
def hex2 (n : Nat) : List Char := [toHexChar (n / 16 % 16), toHexChar (n % 16)]

/-- Four lowercase hex digits of `n % 65536`. -/
def hex4 (n : Nat) : List Char :=
  [toHexChar (n / 4096 % 16), toHexChar (n / 256 % 16), toHexChar (n / 16 % 16),
   toHexChar (n % 16)]

/-- Eight lowercase hex digits of `n`. -/
def hex8 (n : Nat) : List Char := hex4 (n / 65536) ++ hex4 (n % 65536)

/-- One character of a `repr`-style string body, escaped for quote
character `q`. -/
def escapeChar (q : Char) (c : Char) : List Char :=
  if c = '\\' then ['\\', '\\']
  else if c = q then ['\\', q]
  else if c = '\n' then ['\\', 'n']
  else if c = '\r' then ['\\', 'r']
  else if c = '\t' then ['\\', 't']
  else if 32 ≤ c.toNat ∧ c.toNat < 127 then [c]
  else if c.toNat < 256 then '\\' :: 'x' :: hex2 c.toNat
  else if c.toNat < 65536 then '\\' :: 'u' :: hex4 c.toNat
  else '\\' :: 'U' :: hex8 c.toNat

/-- `repr`'s quote choice: single quotes unless the string contains a
single quote but no double quote. -/
def reprQuote (s : String) : Char :=
  if '\'' ∈ s.data ∧ '"' ∉ s.data then '"' else '\''

/-- `repr(str)`: chosen quote, escaped body, closing quote. -/
def reprStr (s : String) : List Char :=
  let q := reprQuote s
  q :: (s.data.flatMap (escapeChar q) ++ [q])

mutual

/-- `str(...)` on a document value (Python literal syntax). -/
def renderVal : PyVal → List Char
  | .pyNone => ['N', 'o', 'n', 'e']
  | .pyInt n => renderInt n
  | .pyStr s => reprStr s
  | .pyList xs => '[' :: (renderElems xs ++ [']'])
  | .pyDict xs => '{' :: (renderEntries xs ++ ['}'])

/-- Comma-joined list elements. -/
def renderElems : List PyVal → List Char
  | [] => []
  | [v] => renderVal v
  | v :: rest => renderVal v ++ ',' :: ' ' :: renderElems rest

/-- Comma-joined `key: value` dictionary entries. -/
def renderEntries : List (String × PyVal) → List Char
  | [] => []
  | [(k, v)] => reprStr k ++ ':' :: ' ' :: renderVal v
  | (k, v) :: rest =>
    reprStr k ++ ':' :: ' ' :: renderVal v ++ ',' :: ' ' :: renderEntries rest

end

/-- The base64 alphabet used by `base64.b64encode`. -/
def b64Alphabet : List Char :=
  "ABCDEFGHIJKLMNOPQRSTUVWXYZabcdefghijklmnopqrstuvwxyz0123456789+/".data

/-- The alphabet character of a 6-bit group. -/
def b64Char (n : Nat) : Char := b64Alphabet.getD n '?'

/-- `base64.b64encode` on a byte list, including `'='` padding.  The
Python code wraps the result in `str(...)[2:-1]`, which strips the
`b'...'` frame; base64 output is printable ASCII, so that wrapper adds
no escapes and the encoded characters are kept as they are. -/
def b64encode : List Nat → List Char
  | [] => []
  | [a] => [b64Char (a / 4), b64Char (a % 4 * 16), '=', '=']
  | [a, b] =>
    [b64Char (a / 4), b64Char (a % 4 * 16 + b / 16), b64Char (b % 16 * 4), '=']
  | a :: b :: c :: rest =>
    b64Char (a / 4) :: b64Char (a % 4 * 16 + b / 16) ::
      b64Char (b % 16 * 4 + c / 64) :: b64Char (c % 64) :: b64encode rest

/-- Position of a character in the base64 alphabet. -/
def b64IndexAux : List Char → Nat → Char → Option Nat
  | [], _, _ => none
  | a :: rest, i, c => if a = c then some i else b64IndexAux rest (i + 1) c

/-- Position of a character in the base64 alphabet (`none` for
non-alphabet characters such as `'='`). -/
def b64Index (c : Char) : Option Nat := b64IndexAux b64Alphabet 0 c

/-- Base64 decoding, the inverse transform of `b64encode` (the decode
half of the round-trip; modelled from the spec's decoding contract).
Padding characters are recognised by falling outside the alphabet. -/
def b64decode : List Char → Option (List Nat)
  | [] => some []
  | w :: x :: y :: z :: rest =>
    match b64Index w, b64Index x, b64Index y, b64Index z with
    | some a, some b, some c, some d =>
      (b64decode rest).map fun tail =>
        (a * 4 + b / 16) :: (b % 16 * 16 + c / 4) :: (c % 4 * 64 + d) :: tail
    | some a, some b, some c, none =>
      if z = '=' ∧ rest = [] ∧ c % 4 = 0 then
        some [a * 4 + b / 16, b % 16 * 16 + c / 4]
      else none
    | some a, some b, none, none =>
      if y = '=' ∧ z = '=' ∧ rest = [] ∧ b % 16 = 0 then some [a * 4 + b / 16]
      else none
    | _, _, _, _ => none
  | _ => none

/-- `DFTemplate._compress`, parameterised by the external
`gzip.compress(s.encode('utf-8'))` stage `gz`: compress the canonical
string, base64-encode, strip the `b'...'` frame. -/
def compress (gz : String → List Nat) (s : String) : String :=
  String.mk (b64encode (gz s))

/-- `DFTemplate.build`: assemble `mainDict`, derive the template name
(propagating the exceptions `deriveName` models), and return the
compressed document together with the name. -/
def DFTemplate.build (gz : String → List Nat) (td : TagData) (t : DFTemplate) :
    Except PyErr (String × String) :=
  match deriveName (buildBlocks td t) with
  | .error e => .error e
  | .ok name => .ok (compress gz (String.mk (renderVal (mainDict td t))), name)

/-! ## Decoding (modelled from the spec)

Modelled from the spec: the repository ships no decoder; the spec's
round-trip property ("decompress + parse ... reproduces a Document")
fixes its contract.  The parser below reads the Python literal syntax
printed by `renderVal` back into a `PyVal`. -/

/-- Numeric value of a lowercase hex digit character. -/
def hexVal (c : Char) : Option Nat :=
  if 48 ≤ c.toNat ∧ c.toNat ≤ 57 then some (c.toNat - 48)
  else if 97 ≤ c.toNat ∧ c.toNat ≤ 102 then some (c.toNat - 87)
  else none

mutual

/-- Modelled from the spec: parse the body of a quoted string up to the
closing quote `q`, undoing the escapes `escapeChar` can emit.  Returns
the decoded characters and the remaining input. -/
def parseStrBody (q : Char) : List Char → Option (List Char × List Char)
  | [] => none
  | c :: rest =>
    if c = '\\' then parseEsc q rest
    else if c = q then some ([], rest)
    else (parseStrBody q rest).map fun p => (c :: p.1, p.2)

/-- Decode one escape sequence (the part after the backslash), then
continue with the string body. -/
def parseEsc (q : Char) : List Char → Option (List Char × List Char)
  | [] => none
  | '\\' :: r => (parseStrBody q r).map fun p => ('\\' :: p.1, p.2)
  | '\'' :: r => (parseStrBody q r).map fun p => ('\'' :: p.1, p.2)
  | '"' :: r => (parseStrBody q r).map fun p => ('"' :: p.1, p.2)
  | 'n' :: r => (parseStrBody q r).map fun p => ('\n' :: p.1, p.2)
  | 'r' :: r => (parseStrBody q r).map fun p => ('\r' :: p.1, p.2)
  | 't' :: r => (parseStrBody q r).map fun p => ('\t' :: p.1, p.2)
  | 'x' :: h1 :: h2 :: r => do
    let a ← hexVal h1
    let b ← hexVal h2
    (parseStrBody q r).map fun p => (Char.ofNat (a * 16 + b) :: p.1, p.2)
  | 'u' :: h1 :: h2 :: h3 :: h4 :: r => do
    let a ← hexVal h1
    let b ← hexVal h2
    let c ← hexVal h3
    let d ← hexVal h4
    (parseStrBody q r).map fun p =>
      (Char.ofNat (a * 4096 + b * 256 + c * 16 + d) :: p.1, p.2)
  | 'U' :: h1 :: h2 :: h3 :: h4 :: h5 :: h6 :: h7 :: h8 :: r => do
    let a ← hexVal h1
    let b ← hexVal h2
    let c ← hexVal h3
    let d ← hexVal h4
    let e ← hexVal h5
    let f ← hexVal h6
    let g ← hexVal h7
    let h ← hexVal h8
    (parseStrBody q r).map fun p =>
      (Char.ofNat (((a * 4096 + b * 256 + c * 16 + d) * 65536 : Nat) +
        (e * 4096 + f * 256 + g * 16 + h)) :: p.1, p.2)
  | _ => none

end

/-- Parse a quoted string literal (either quote character). -/
def parseKeyStr : List Char → Option (String × List Char)
  | '\'' :: rest => (parseStrBody '\'' rest).map fun p => (String.mk p.1, p.2)
  | '"' :: rest => (parseStrBody '"' rest).map fun p => (String.mk p.1, p.2)
  | _ => none

/-- Greedily consume decimal digits, accumulating their value. -/
def parseDigits : List Char → Nat → Nat × List Char
  | [], acc => (acc, [])
  | c :: rest, acc =>
    if c.isDigit then parseDigits rest (acc * 10 + (c.toNat - 48))
    else (acc, c :: rest)

/-- Parse an optionally negated decimal integer literal. -/
def parseIntFrom : List Char → Option (Int × List Char)
  | [] => none
  | c :: rest =>
    if c = '-' then
      match rest with
      | [] => none
      | c2 :: rest2 =>
        if c2.isDigit then
          let p := parseDigits (c2 :: rest2) 0
          some (-(p.1 : Int), p.2)
        else none
    else if c.isDigit then
      let p := parseDigits (c :: rest) 0
      some ((p.1 : Int), p.2)
    else none

/-- Recognise the tail `one` of the literal `None`. -/
def parseNoneTail : List Char → Option (PyVal × List Char)
  | 'o' :: 'n' :: 'e' :: r => some (.pyNone, r)
  | _ => none

mutual

/-- Modelled from the spec: fuelled parser for one Python literal
value, dispatching on the first character. -/
def parseVal : Nat → List Char → Option (PyVal × List Char)
  | 0, _ => none
  | _ + 1, [] => none
  | f + 1, c :: r =>
    if c = 'N' then parseNoneTail r
    else if c = '\'' then
      (parseStrBody '\'' r).map fun p => (.pyStr (String.mk p.1), p.2)
    else if c = '"' then
      (parseStrBody '"' r).map fun p => (.pyStr (String.mk p.1), p.2)
    else if c = '[' then parseListStart f r
    else if c = '{' then parseDictStart f r
    else (parseIntFrom (c :: r)).map fun p => (.pyInt p.1, p.2)

/-- Parse what follows an opening `'['`: an immediate `']'` gives the
empty list, anything else a non-empty element run. -/
def parseListStart : Nat → List Char → Option (PyVal × List Char)
  | 0, _ => none
  | f + 1, [] => (parseItems f []).map fun p => (.pyList p.1, p.2)
  | f + 1, c :: r2 =>
    if c = ']' then some (.pyList [], r2)
    else (parseItems f (c :: r2)).map fun p => (.pyList p.1, p.2)

/-- Parse what follows an opening `'{'`: an immediate `'}'` gives the
empty dictionary, anything else a non-empty entry run. -/
def parseDictStart : Nat → List Char → Option (PyVal × List Char)
  | 0, _ => none
  | f + 1, [] => (parseEntries f []).map fun p => (.pyDict p.1, p.2)
  | f + 1, c :: r2 =>
    if c = '}' then some (.pyDict [], r2)
    else (parseEntries f (c :: r2)).map fun p => (.pyDict p.1, p.2)

/-- Parse the elements of a non-empty list literal up to and including
the closing `']'`. -/
def parseItems : Nat → List Char → Option (List PyVal × List Char)
  | 0, _ => none
  | f + 1, input => (parseVal f input).bind (parseItemsTail f)

/-- After one list element: a `']'` closes the list, a `", "` separator
continues it. -/
def parseItemsTail : Nat → PyVal × List Char → Option (List PyVal × List Char)
  | 0, _ => none
  | _ + 1, (v, ']' :: r2) => some ([v], r2)
  | f + 1, (v, ',' :: ' ' :: r2) => (parseItems f r2).map fun p => (v :: p.1, p.2)
  | _, _ => none

/-- Parse the entries of a non-empty dictionary literal up to and
including the closing `'}'`. -/
def parseEntries : Nat → List Char → Option (List (String × PyVal) × List Char)
  | 0, _ => none
  | f + 1, input => (parseKeyStr input).bind (parseEntrySep f)

/-- After a dictionary key: expect the `": "` separator, then the
value. -/
def parseEntrySep : Nat → String × List Char → Option (List (String × PyVal) × List Char)
  | 0, _ => none
  | f + 1, (k, ':' :: ' ' :: r2) => (parseVal f r2).bind (parseEntryVal f k)
  | _, _ => none

/-- After a dictionary value: a `'}'` closes the dictionary, a `", "`
separator continues it. -/
def parseEntryVal : Nat → String → PyVal × List Char → Option (List (String × PyVal) × List Char)
  | 0, _, _ => none
  | _ + 1, k, (v, '}' :: r4) => some ([(k, v)], r4)
  | f + 1, k, (v, ',' :: ' ' :: r4) =>
    (parseEntries f r4).map fun p => ((k, v) :: p.1, p.2)
  | _, _, _ => none

end

/-- Modelled from the spec: parse a complete document string (the
entire input must be consumed). -/
def parseDoc (s : String) : Option PyVal :=
  match parseVal (2 * s.data.length + 1) s.data with
  | some (v, []) => some v
  | _ => none

/-- Modelled from the spec: the full decode pipeline of the round-trip
property — base64-decode, decompress with the external `ungz` stage
(`gzip.decompress` followed by `bytes.decode('utf-8')`), parse. -/
def decodeTemplate (ungz : List Nat → String) (code : String) : Option PyVal :=
  match b64decode code.data with
  | some bytes => parseDoc (ungz bytes)
  | none => none

/-- A concrete stand-in for the abstract compression stage, used to
instantiate round-trip theorems on closed inputs: each character
becomes three big-endian bytes of its code point. -/
def gz0 (s : String) : List Nat :=
  s.data.flatMap fun c => [c.toNat / 65536, c.toNat / 256 % 256, c.toNat % 256]

/-- Inverse of `gz0` on its image: fold byte triples back to
characters. -/
def ungz0Chars : List Nat → List Char
  | a :: b :: c :: rest => Char.ofNat (a * 65536 + b * 256 + c) :: ungz0Chars rest
  | _ => []

/-- Inverse of `gz0` on its image. -/
def ungz0 (bytes : List Nat) : String := String.mk (ungz0Chars bytes)

/-- The first character of the remaining input is not a decimal digit
(so a preceding integer literal cannot be extended into it). -/
def noDigitHead : List Char → Prop
  | [] => True
  | c :: _ => c.isDigit = false

/-- The numeric value of a digit run, folded onto an accumulator (the
value `parseDigits` computes). -/
def digitsToNat (l : List Char) (acc : Nat) : Nat :=
  l.foldl (fun a c => a * 10 + (c.toNat - 48)) acc

mutual

/-- Parser fuel sufficient for one value. -/
def pyFuel : PyVal → Nat
  | .pyNone => 1
  | .pyInt _ => 1
  | .pyStr _ => 1
  | .pyList xs => 2 + elemsFuel xs
  | .pyDict xs => 2 + entriesFuel xs

/-- Parser fuel sufficient for a run of list elements. -/
def elemsFuel : List PyVal → Nat
  | [] => 0
  | v :: rest => pyFuel v + 2 + elemsFuel rest

/-- Parser fuel sufficient for a run of dictionary entries. -/
def entriesFuel : List (String × PyVal) → Nat
  | [] => 0
  | (_, v) :: rest => pyFuel v + 3 + entriesFuel rest

end

/-! ## Statement helpers and concrete instances -/

/-- The most recently appended command. -/
def lastCmd (t : DFTemplate) : Option CodeBlock := t.commands.getLast?

/-- The `type` entry of a command's `data` dictionary. -/
def cmdType (cmd : CodeBlock) : Option PyVal := lookupKey cmd.data "type"

/-- The `args.items` list of an assembled block dictionary. -/
def blockItems : PyVal → Option (List PyVal)
  | .pyDict bd =>
    match lookupKey bd "args" with
    | some (.pyDict ad) =>
      match lookupKey ad "items" with
      | some (.pyList its) => some its
      | _ => none
    | _ => none
  | _ => none

/-- The `args.items` list of the `i`-th assembled block. -/
def itemsAt (blocks : List PyVal) (i : Nat) : Option (List PyVal) :=
  (blocks.get? i).bind blockItems

/-- The `slot` entry of a rendered item. -/
def itemSlot : PyVal → Option PyVal
  | .pyDict d => lookupKey d "slot"
  | _ => none

/-- An empty tag schema. -/
def tdEmpty : TagData := ⟨[], []⟩

/-- A schema assigning two tags to the `player_action` action `Foo`. -/
def tdTwoTags : TagData :=
  ⟨[], [("player_action", [("Foo", [.pyStr "TagA", .pyStr "TagB"])])]⟩

/-- A schema assigning one tag to the `player_action` action `Foo`. -/
def tdOneTag : TagData :=
  ⟨[], [("player_action", [("Foo", [.pyStr "TagA"])])]⟩

/-- A `player_action` block command with `n` numeric arguments. -/
def fooCmd (n : Nat) : CodeBlock :=
  ⟨"Foo", (List.range n).map (fun i => num (i : Int)), "Default",
   [("id", .pyStr "block"), ("block", .pyStr "player_action"), ("action", .pyStr "Foo")]⟩

/-- The template holding just `fooCmd n`. -/
def fooTemplate (n : Nat) : DFTemplate := ⟨[fooCmd n], none, []⟩

/-- A fresh template after `else_`. -/
def wElse : DFTemplate := DFTemplate.init.else_

/-- `wElse` after `bracket()`. -/
def wElseClosed : DFTemplate :=
  wElse.push ⟨"Bracket", [], "Default",
    [("id", .pyStr "bracket"), ("direct", .pyStr "close"), ("type", .pyStr "norm")]⟩

/-- The one-block template `playerEvent('Join')`. -/
def wC2T : DFTemplate := DFTemplate.init.playerEvent "Join"

/-- The encoded string `build` produces for `wC2T` under the `gz0`
compression stand-in. -/
def wC2Code : String := compress gz0 (String.mk (renderVal (mainDict tdEmpty wC2T)))

/-- A fresh template after `ifPlayer('x')`. -/
def wIfP : DFTemplate :=
  (DFTemplate.init.push ⟨"x", [], "Default",
    [("id", .pyStr "block"), ("block", .pyStr "if_player"), ("action", .pyStr "x")]⟩
    ).openbracket "norm"

/-- A fresh template after `ifVariable('x')`. -/
def wIfVar : DFTemplate :=
  (DFTemplate.init.push ⟨"x", [], "Default",
    [("id", .pyStr "block"), ("block", .pyStr "if_var"), ("action", .pyStr "x")]⟩
    ).openbracket "norm"

/-- A fresh template after `ifGame('x')`. -/
def wIfGame : DFTemplate :=
  (DFTemplate.init.push ⟨"x", [], "Default",
    [("id", .pyStr "block"), ("block", .pyStr "if_game"), ("action", .pyStr "x")]⟩
    ).openbracket "norm"

/-- A fresh template after `ifEntity('x')`. -/
def wIfEntity : DFTemplate :=
  (DFTemplate.init.push ⟨"x", [], "Default",
    [("id", .pyStr "block"), ("block", .pyStr "if_entity"), ("action", .pyStr "x")]⟩
    ).openbracket "norm"

/-- The synthetic local-scope assignment block `callFunction` emits for
one parameter. -/
def setVarParamBlock (k : String) (v : TypedValue) : CodeBlock :=
  ⟨"=", [var k "local", v], "Default",
   [("id", .pyStr "block"), ("block", .pyStr "set_var"), ("action", .pyStr "=")]⟩

/-- The `call_func` block carrying the function name. -/
def callFuncBlock (name : String) : CodeBlock :=
  ⟨"call_func", [], "Default",
   [("id", .pyStr "block"), ("block", .pyStr "call_func"), ("data", .pyStr name)]⟩

/-- The template state `define_('x', 5)` produces from fresh. -/
def wDefX : DFTemplate :=
  ⟨[⟨"=", [var "x" "unsaved", num 5], "Default",
     [("id", .pyStr "block"), ("block", .pyStr "set_var"), ("action", .pyStr "=")]⟩],
   none, [("x", var "x" "unsaved")]⟩

/-- A fresh template after `repeat('Forever')`. -/
def wRepeat : DFTemplate :=
  (DFTemplate.init.push ⟨"Forever", [], "Default",
    [("id", .pyStr "block"), ("block", .pyStr "repeat"), ("action", .pyStr "Forever")]⟩
    ).openbracket "repeat"

/-! ## General lemmas -/

theorem bind_ok {α β : Type} {x : Except PyErr α} {f : α → Except PyErr β} {b : β}
    (h : (x >>= f) = .ok b) : ∃ a, x = .ok a ∧ f a = .ok b := by
  cases x with
  | error e => simp [Bind.bind, Except.bind] at h
  | ok a => exact ⟨a, rfl, by simpa [Bind.bind, Except.bind] using h⟩

theorem lastCmd_push (t : DFTemplate) (c : CodeBlock) : lastCmd (t.push c) = some c := by
  simp [lastCmd, DFTemplate.push]

/-- Closing right after an `_openbracket` appends a close block typed
with that bracket's flavor. -/
theorem close_after_open (X : DFTemplate) (fl : String) :
    ∃ t'', (X.openbracket fl).bracket [] = .ok t'' ∧
      (lastCmd t'').bind cmdType = some (.pyStr fl) := by
  refine ⟨_, rfl, ?_⟩
  rw [lastCmd_push]
  simp [cmdType, lookupKey, closeType, DFTemplate.openbracket]

/-! ## C10 -/

/-- C10: calling `bracket()` on a fresh (or freshly cleared) template
raises no error: it appends a close-bracket block whose `type` field is
the `None` sentinel, and `clear` restores exactly the fresh state. -/
theorem c10_fresh_bracket :
    (DFTemplate.init.bracket [] =
      .ok ⟨[⟨"Bracket", [], "Default",
        [("id", .pyStr "bracket"), ("direct", .pyStr "close"), ("type", .pyNone)]⟩],
        none, []⟩) ∧
    (∀ t : DFTemplate, t.clear = DFTemplate.init) :=
  ⟨rfl, fun _ => rfl⟩

/-! ## C9 -/

/-- C9 counterexample: after `else_` (state bracket-open "norm"), a
`bracket()` close call leaves `closebracket` at `some "norm"`; it does
not return the builder to the no-open-bracket state, contrary to the
claimed two-state machine. -/
theorem c9_counterexample :
    wElse.bracket [] = .ok wElseClosed ∧ wElseClosed.closebracket = some "norm" ∧
      wElseClosed.closebracket ≠ none :=
  ⟨rfl, rfl, by simp [wElseClosed, wElse, DFTemplate.push, DFTemplate.openbracket,
    DFTemplate.else_]⟩

/-- C9 (amended): openers move any state to bracket-open(flavor);
`bracket` appends a close block typed with the flavor of the state
being exited but leaves `closebracket` unchanged (it does not return
to the no-open-bracket state); only `__init__`/`clear` give the
no-open-bracket state. -/
theorem c9_bracket_states :
    (∀ (t : DFTemplate) (btype : String),
      (t.openbracket btype).closebracket = some btype) ∧
    (∀ (t : DFTemplate) (args : List RawVal) (t' : DFTemplate),
      t.bracket args = .ok t' →
      t'.closebracket = t.closebracket ∧
      (lastCmd t').bind cmdType = some (closeType t.closebracket)) ∧
    DFTemplate.init.closebracket = none := by
  refine ⟨fun _ _ => rfl, ?_, rfl⟩
  intro t args t' h
  obtain ⟨a, _, hp⟩ := bind_ok h
  simp only [pure, Except.pure, Except.ok.injEq] at hp
  subst hp
  refine ⟨rfl, ?_⟩
  rw [lastCmd_push]
  simp [cmdType, lookupKey]

/-- Witness for `c9_bracket_states` at the concrete input `wElse`. -/
theorem c9_bracket_states_witness :
    wElseClosed.closebracket = wElse.closebracket ∧
      (lastCmd wElseClosed).bind cmdType = some (closeType wElse.closebracket) :=
  c9_bracket_states.2.1 wElse [] wElseClosed rfl

/-! ## C4 -/

/-- C4: after any bracket-opening method (the four conditionals and
`else_` with the normal flavor, `repeat` with the repeating flavor), an
immediately following `bracket()` call appends a close block whose
`type` field equals that opener's flavor. -/
theorem c4_close_matches_opener :
    (∀ t name args target t', DFTemplate.ifPlayer t name args target = .ok t' →
      ∃ t'', t'.bracket [] = .ok t'' ∧
        (lastCmd t'').bind cmdType = some (.pyStr "norm")) ∧
    (∀ t name args t', DFTemplate.ifVariable t name args = .ok t' →
      ∃ t'', t'.bracket [] = .ok t'' ∧
        (lastCmd t'').bind cmdType = some (.pyStr "norm")) ∧
    (∀ t name args t', DFTemplate.ifGame t name args = .ok t' →
      ∃ t'', t'.bracket [] = .ok t'' ∧
        (lastCmd t'').bind cmdType = some (.pyStr "norm")) ∧
    (∀ t name args t', DFTemplate.ifEntity t name args = .ok t' →
      ∃ t'', t'.bracket [] = .ok t'' ∧
        (lastCmd t'').bind cmdType = some (.pyStr "norm")) ∧
    (∀ t, ∃ t'', (DFTemplate.else_ t).bracket [] = .ok t'' ∧
      (lastCmd t'').bind cmdType = some (.pyStr "norm")) ∧
    (∀ t name args sa t', DFTemplate.repeat t name args sa = .ok t' →
      ∃ t'', t'.bracket [] = .ok t'' ∧
        (lastCmd t'').bind cmdType = some (.pyStr "repeat")) := by
  refine ⟨?_, ?_, ?_, ?_, fun t => close_after_open _ "norm", ?_⟩ <;>
    intro t name args
  · intro target t' h
    obtain ⟨a, _, hp⟩ := bind_ok h
    simp only [pure, Except.pure, Except.ok.injEq] at hp
    subst hp
    exact close_after_open _ "norm"
  · intro t' h
    obtain ⟨a, _, hp⟩ := bind_ok h
    simp only [pure, Except.pure, Except.ok.injEq] at hp
    subst hp
    exact close_after_open _ "norm"
  · intro t' h
    obtain ⟨a, _, hp⟩ := bind_ok h
    simp only [pure, Except.pure, Except.ok.injEq] at hp
    subst hp
    exact close_after_open _ "norm"
  · intro t' h
    obtain ⟨a, _, hp⟩ := bind_ok h
    simp only [pure, Except.pure, Except.ok.injEq] at hp
    subst hp
    exact close_after_open _ "norm"
  · intro sa t' h
    obtain ⟨a, _, hp⟩ := bind_ok h
    simp only [pure, Except.pure, Except.ok.injEq] at hp
    subst hp
    exact close_after_open _ "repeat"

/-- Witness for `c4_close_matches_opener`: all six openers applied on a
fresh template. -/
theorem c4_close_matches_opener_witness :
    (∃ t'', wIfP.bracket [] = .ok t'' ∧
      (lastCmd t'').bind cmdType = some (.pyStr "norm")) ∧
    (∃ t'', wIfVar.bracket [] = .ok t'' ∧
      (lastCmd t'').bind cmdType = some (.pyStr "norm")) ∧
    (∃ t'', wIfGame.bracket [] = .ok t'' ∧
      (lastCmd t'').bind cmdType = some (.pyStr "norm")) ∧
    (∃ t'', wIfEntity.bracket [] = .ok t'' ∧
      (lastCmd t'').bind cmdType = some (.pyStr "norm")) ∧
    (∃ t'', (DFTemplate.else_ DFTemplate.init).bracket [] = .ok t'' ∧
      (lastCmd t'').bind cmdType = some (.pyStr "norm")) ∧
    (∃ t'', wRepeat.bracket [] = .ok t'' ∧
      (lastCmd t'').bind cmdType = some (.pyStr "repeat")) :=
  ⟨c4_close_matches_opener.1 DFTemplate.init "x" [] "Default" wIfP rfl,
   c4_close_matches_opener.2.1 DFTemplate.init "x" [] wIfVar rfl,
   c4_close_matches_opener.2.2.1 DFTemplate.init "x" [] wIfGame rfl,
   c4_close_matches_opener.2.2.2.1 DFTemplate.init "x" [] wIfEntity rfl,
   c4_close_matches_opener.2.2.2.2.1 DFTemplate.init,
   c4_close_matches_opener.2.2.2.2.2 DFTemplate.init "Forever" [] none wRepeat rfl⟩

/-! ## C3 -/

/-- C3: `define_` stores the binding `name ↦ var(name, scope)`; a
back-reference argument `^name` resolves to exactly the stored
`TypedValue` when the name is bound, and fails with the key-lookup
error (the `UnknownReference` condition) when it was never defined. -/
theorem c3_backref_resolution :
    (∀ (t : DFTemplate) (name : String) (value : RawVal) (scope : String)
        (csv : Bool) (t' : DFTemplate),
      DFTemplate.define_ t name value scope csv = .ok t' →
      List.lookup name t'.definedVars = some (var name scope)) ∧
    (∀ (dv : List (String × TypedValue)) (name : String) (v : TypedValue),
      List.lookup name dv = some v →
      convertOne dv (.rStr ("^" ++ name)) = .ok v) ∧
    (∀ (dv : List (String × TypedValue)) (name : String),
      List.lookup name dv = none →
      convertOne dv (.rStr ("^" ++ name)) = .error (.keyError name)) := by
  refine ⟨?_, ?_, ?_⟩
  · intro t name value scope csv t' h
    unfold DFTemplate.define_ at h
    cases hb : (if csv = true then t.setVariable "=" [.rTyped (var name scope), value]
        else pure t) with
    | error e => rw [hb] at h; exact absurd h (by simp)
    | ok a =>
      rw [hb] at h
      simp only [Except.ok.injEq] at h
      subst h
      simp [List.lookup]
  · intro dv name v h
    obtain ⟨l⟩ := name
    simp [convertOne, h]
  · intro dv name h
    obtain ⟨l⟩ := name
    simp [convertOne, h]

/-- Witness for `c3_backref_resolution`: `define('x', 5)` then `^x`,
and `^y` with no binding. -/
theorem c3_backref_resolution_witness :
    List.lookup "x" wDefX.definedVars = some (var "x" "unsaved") ∧
    convertOne [("x", var "x" "unsaved")] (.rStr ("^" ++ "x")) =
      .ok (var "x" "unsaved") ∧
    convertOne [] (.rStr ("^" ++ "y")) = .error (.keyError "y") :=
  ⟨c3_backref_resolution.1 DFTemplate.init "x" (.rInt 5) "unsaved" true wDefX rfl,
   c3_backref_resolution.2.1 [("x", var "x" "unsaved")] "x" (var "x" "unsaved") rfl,
   c3_backref_resolution.2.2 [] "y" rfl⟩

/-! ## C6 -/

/-- C6 counterexample: the empty string does not start with `'^'`, yet
conversion does not produce the text value the claim requires — the
`element[0]` subscript raises `IndexError`. -/
theorem c6_counterexample :
    convertOne [] (.rStr "") = .error .indexError ∧
      convertOne [] (.rStr "") ≠ .ok (text "") :=
  ⟨rfl, fun h => nomatch h⟩

/-- C6 (amended): conversion priority — numbers become `num` values; a
*non-empty* string starting with `'^'` is resolved as a back-reference
(failing on an unknown name); any other *non-empty* string becomes a
`text` value; an empty string raises `IndexError`; an already-typed
value passes through unchanged; and `_convertDataTypes` applies the
rule elementwise. -/
theorem c6_conversion_rules :
    (∀ dv (n : Int), convertOne dv (.rInt n) = .ok (num n)) ∧
    (∀ (dv : List (String × TypedValue)) (s : String) c rest,
      s.data = c :: rest → c ≠ '^' → convertOne dv (.rStr s) = .ok (text s)) ∧
    (∀ dv name, convertOne dv (.rStr ("^" ++ name)) =
      (match List.lookup name dv with
        | some v => .ok v
        | none => .error (.keyError name))) ∧
    (∀ dv tv, convertOne dv (.rTyped tv) = .ok tv) ∧
    (∀ dv, convertOne dv (.rStr "") = .error .indexError) ∧
    (∀ dv lst, convertDataTypes dv lst = lst.mapM (convertOne dv)) := by
  refine ⟨fun _ _ => rfl, ?_, ?_, fun _ _ => rfl, fun _ => rfl, fun _ _ => rfl⟩
  · intro dv s c rest hs hc
    obtain ⟨l⟩ := s
    simp only at hs
    subst hs
    simp [convertOne, hc]
  · intro dv name
    obtain ⟨l⟩ := name
    cases hl : List.lookup (⟨l⟩ : String) dv <;> simp [convertOne, hl]

/-- Witness for `c6_conversion_rules`: the string `"hi"` does not start
with `'^'` and converts to `text "hi"`. -/
theorem c6_conversion_rules_witness :
    convertOne [] (.rStr "hi") = .ok (text "hi") :=
  c6_conversion_rules.2.1 [] "hi" 'h' ['i'] rfl (by decide)

/-! ## C8 -/

/-- The parameter loop of `callFunction`: when every parameter value
converts, the fold appends exactly one local-scope assignment block per
parameter, in order, leaving the other state fields unchanged. -/
theorem callFunction_fold (params : List (String × RawVal)) :
    ∀ (t : DFTemplate) (vals : List TypedValue),
    params.mapM (fun kv => convertOne t.definedVars kv.2) = .ok vals →
    params.foldlM
      (fun acc kv => acc.setVariable "=" [.rTyped (var kv.1 "local"), kv.2]) t =
      .ok ⟨t.commands ++ (params.zip vals).map (fun pv => setVarParamBlock pv.1.1 pv.2),
           t.closebracket, t.definedVars⟩ := by
  induction params with
  | nil =>
    intro t vals h
    simp only [List.mapM_nil, pure, Except.pure, Except.ok.injEq] at h
    subst h
    simp [pure, Except.pure]
  | cons kv rest ih =>
    intro t vals h
    rw [List.mapM_cons] at h
    obtain ⟨v, hv, h2⟩ := bind_ok h
    obtain ⟨vs, hvs, h3⟩ := bind_ok h2
    simp only [pure, Except.pure, Except.ok.injEq] at h3
    subst h3
    have hmap : convertDataTypes t.definedVars [.rTyped (var kv.1 "local"), kv.2] =
        .ok [var kv.1 "local", v] := by
      have h1 : convertOne t.definedVars (.rTyped (var kv.1 "local")) =
          .ok (var kv.1 "local") := rfl
      simp only [convertDataTypes, List.mapM_cons, List.mapM_nil, h1, hv]
      rfl
    have hstep : t.setVariable "=" [.rTyped (var kv.1 "local"), kv.2] =
        .ok (t.push (setVarParamBlock kv.1 v)) := by
      unfold DFTemplate.setVariable
      rw [hmap]
      rfl
    rw [List.foldlM_cons, hstep]
    simp only [Bind.bind, Except.bind]
    have := ih (t.push (setVarParamBlock kv.1 v)) vs hvs
    rw [this]
    simp [DFTemplate.push, List.append_assoc]

/-- C8: `callFunction` with a non-empty parameter mapping appends one
local-scope assignment block per parameter (in mapping order), then
exactly one `call_func` block carrying the function name; the bracket
state and defined variables are untouched. -/
theorem c8_callFunction_params (t : DFTemplate) (fname : String)
    (params : List (String × RawVal)) (vals : List TypedValue)
    (_hne : params ≠ [])
    (hconv : params.mapM (fun kv => convertOne t.definedVars kv.2) = .ok vals) :
    DFTemplate.callFunction t fname params =
      .ok ⟨t.commands ++ (params.zip vals).map (fun pv => setVarParamBlock pv.1.1 pv.2)
            ++ [callFuncBlock fname],
           t.closebracket, t.definedVars⟩ := by
  unfold DFTemplate.callFunction
  rw [callFunction_fold params t vals hconv]
  simp [Bind.bind, Except.bind, pure, Except.pure, DFTemplate.push, callFuncBlock]

/-- Witness for `c8_callFunction_params`: two numeric parameters. -/
theorem c8_callFunction_params_witness :
    DFTemplate.callFunction DFTemplate.init "f" [("a", .rInt 1), ("b", .rInt 2)] =
      .ok ⟨[setVarParamBlock "a" (num 1), setVarParamBlock "b" (num 2),
            callFuncBlock "f"], none, []⟩ :=
  c8_callFunction_params DFTemplate.init "f" [("a", .rInt 1), ("b", .rInt 2)]
    [num 1, num 2] (by simp) rfl

/-! ## Structure of assembled blocks -/

theorem lookupKey_append (l1 l2 : List (String × PyVal)) (k : String) :
    lookupKey (l1 ++ l2) k =
      (match lookupKey l1 k with
        | some v => some v
        | none => lookupKey l2 k) := by
  induction l1 with
  | nil => rfl
  | cons p rest ih =>
    obtain ⟨pk, pv⟩ := p
    by_cases h : pk = k <;> simp [lookupKey, h, ih]

/-- Every assembled block is a dictionary whose `args.items` entry is
the rendered-and-tagged item list, and whose other entries restate
`cmd.data` (apart from the possible trailing `target`). -/
theorem buildBlock_dict (td : TagData) (cmd : CodeBlock) :
    ∃ bd, buildBlock td cmd = .pyDict bd ∧
      lookupKey bd "args" = some (.pyDict [("items", .pyList (applyTags
        (lookupTags td (lookupKey cmd.data "block") cmd.name)
        (renderItems cmd.args)))]) ∧
      ∀ key, key ≠ "args" → key ≠ "target" →
        lookupKey bd key = lookupKey cmd.data key := by
  cases hc : (!isEventVal (lookupKey cmd.data "block") && cmd.target != "Default") with
  | true =>
    refine ⟨("args", PyVal.pyDict [("items", PyVal.pyList (applyTags
        (lookupTags td (lookupKey cmd.data "block") cmd.name)
        (renderItems cmd.args)))]) :: cmd.data ++ [("target", PyVal.pyStr cmd.target)],
      ?_, ?_, ?_⟩
    · simp [buildBlock, hc]
    · simp [lookupKey]
    · intro key hka hkt
      have h1 : ("args" = key) = False := eq_false fun h => hka h.symm
      simp only [List.cons_append, lookupKey, h1, if_false]
      rw [show cmd.data.append [("target", PyVal.pyStr cmd.target)] =
        cmd.data ++ [("target", PyVal.pyStr cmd.target)] from rfl, lookupKey_append]
      have h2 : ("target" = key) = False := eq_false fun h => hkt h.symm
      cases hk : lookupKey cmd.data key <;> simp [lookupKey, h2]
  | false =>
    refine ⟨("args", PyVal.pyDict [("items", PyVal.pyList (applyTags
        (lookupTags td (lookupKey cmd.data "block") cmd.name)
        (renderItems cmd.args)))]) :: cmd.data, ?_, ?_, ?_⟩
    · simp [buildBlock, hc]
    · simp [lookupKey]
    · intro key hka _
      have h1 : ("args" = key) = False := eq_false fun h => hka h.symm
      simp only [lookupKey, h1, if_false]

theorem buildBlocks_get? (td : TagData) (t : DFTemplate) (i : Nat) :
    (buildBlocks td t).get? i = (t.commands.get? i).map (buildBlock td) := by
  simp [buildBlocks]

/-! ## C5 -/

/-- C5 counterexample: on an empty command sequence, `build` raises
`IndexError` at `mainDict['blocks'][0]` instead of returning normally
with the name `'Unnamed'`. -/
theorem c5_counterexample :
    DFTemplate.init.build gz0 tdEmpty = .error .indexError := rfl

/-- C5 (amended): the display name is derived from the first block —
`block + '_' + action` when the category is a template starter and an
`action` key exists; the block's bare `data` string when the category
is a starter without an `action` key; `'Unnamed'` (with only a
warning) when the category is not a starter; but an empty sequence
makes `build` raise `IndexError` rather than return `'Unnamed'`, and
`build` returns exactly the name `deriveName` produces. -/
theorem c5_name_derivation :
    (∀ gz td (t : DFTemplate), t.commands = [] →
      t.build gz td = .error .indexError) ∧
    (∀ gz td (t : DFTemplate) code name, t.build gz td = .ok (code, name) →
      deriveName (buildBlocks td t) = .ok name) ∧
    (∀ td (t : DFTemplate) cmd rest s, t.commands = cmd :: rest →
      lookupKey cmd.data "block" = some (.pyStr s) →
      ((∀ a, s ∈ TEMPLATE_STARTERS →
        lookupKey cmd.data "action" = some (.pyStr a) →
        deriveName (buildBlocks td t) = .ok (s ++ "_" ++ a)) ∧
       (∀ d, s ∈ TEMPLATE_STARTERS →
        lookupKey cmd.data "action" = none →
        lookupKey cmd.data "data" = some (.pyStr d) →
        deriveName (buildBlocks td t) = .ok d) ∧
       (s ∉ TEMPLATE_STARTERS →
        deriveName (buildBlocks td t) = .ok "Unnamed"))) := by
  refine ⟨?_, ?_, ?_⟩
  · intro gz td t h
    have hb : buildBlocks td t = [] := by simp [buildBlocks, h]
    unfold DFTemplate.build
    rw [hb]
    rfl
  · intro gz td t code name h
    unfold DFTemplate.build at h
    cases hd : deriveName (buildBlocks td t) with
    | error e => rw [hd] at h; exact absurd h (by simp)
    | ok n => rw [hd] at h; simp only [Except.ok.injEq, Prod.mk.injEq] at h; rw [h.2]
  · intro td t cmd rest s ht hblock
    obtain ⟨bd, hb, _, hlk⟩ := buildBlock_dict td cmd
    have hbb : buildBlocks td t = PyVal.pyDict bd :: rest.map (buildBlock td) := by
      rw [buildBlocks, ht, List.map_cons, hb]
    have hlkb : lookupKey bd "block" = some (.pyStr s) := by
      rw [hlk "block" (by decide) (by decide)]; exact hblock
    refine ⟨?_, ?_, ?_⟩
    · intro a hs haction
      have hlka : lookupKey bd "action" = some (.pyStr a) := by
        rw [hlk "action" (by decide) (by decide)]; exact haction
      simp [deriveName, hbb, hlkb, hlka, hs]
    · intro d hs haction hdata
      have hlka : lookupKey bd "action" = none := by
        rw [hlk "action" (by decide) (by decide)]; exact haction
      have hlkd : lookupKey bd "data" = some (.pyStr d) := by
        rw [hlk "data" (by decide) (by decide)]; exact hdata
      simp [deriveName, hbb, hlkb, hlka, hlkd, hs]
    · intro hs
      simp [deriveName, hbb, hlkb, hs]

/-- Witness for `c5_name_derivation`: `playerEvent('Join')` names the
template `event_Join`; `function('f')` names it `f`; a lone
`player_action` block warns and yields `Unnamed`; the empty template
errors. -/
theorem c5_name_derivation_witness :
    DFTemplate.init.build gz0 tdEmpty = .error .indexError ∧
    deriveName (buildBlocks tdEmpty (DFTemplate.init.playerEvent "Join")) =
      .ok ("event" ++ "_" ++ "Join") ∧
    deriveName (buildBlocks tdEmpty (DFTemplate.init.function "f")) = .ok "f" ∧
    deriveName (buildBlocks tdEmpty (fooTemplate 0)) = .ok "Unnamed" :=
  ⟨c5_name_derivation.1 gz0 tdEmpty DFTemplate.init rfl,
   (c5_name_derivation.2.2 tdEmpty (DFTemplate.init.playerEvent "Join")
      ⟨"Join", [], "Default",
       [("id", .pyStr "block"), ("block", .pyStr "event"), ("action", .pyStr "Join")]⟩
      [] "event" rfl rfl).1 "Join" (by decide) rfl,
   (c5_name_derivation.2.2 tdEmpty (DFTemplate.init.function "f")
      ⟨"function", [], "Default",
       [("id", .pyStr "block"), ("block", .pyStr "func"), ("data", .pyStr "f")]⟩
      [] "func" rfl rfl).2.1 "f" (by decide) rfl rfl,
   (c5_name_derivation.2.2 tdEmpty (fooTemplate 0) (fooCmd 0) [] "player_action"
      rfl rfl).2.2 (by decide)⟩

/-! ## C1 -/

/-- C1 counterexample: a `player_action` block with 26 rendered items
and 2 schema tags.  The combined list (28 entries) exceeds the claimed
capacity of 27, yet the code — whose trim condition tests the pre-tag
items alone against 27 — appends the tags without truncating, so the
final list has 28 entries, not `(26 - tagCount) + tagCount = 26`. -/
theorem c1_counterexample :
    DFTemplate.init.playerAction "Foo"
      ((List.range 26).map (fun i => .rInt (i : Int))) "Default" =
      .ok (fooTemplate 26) ∧
    (itemsAt (buildBlocks tdTwoTags (fooTemplate 26)) 0).map List.length = some 28 ∧
    some (28 : Nat) ≠ some ((26 - 2) + 2 : Nat) :=
  ⟨rfl, rfl, by decide⟩

/-- C1 (amended): for every assembled block, schema tags (when found)
are appended strictly after the block's own rendered items, and the
items are truncated — to `items[:26 - tagCount]` — exactly when the
pre-tag items list alone exceeds 27 entries (not whenever the combined
list would); in the truncating case the final length is
`(26 - tagCount) + tagCount`; tags are never dropped. -/
theorem c1_tag_truncation (td : TagData) (t : DFTemplate) (i : Nat)
    (cmd : CodeBlock) (hc : t.commands.get? i = some cmd) :
    ∃ its, itemsAt (buildBlocks td t) i = some its ∧
      its = applyTags (lookupTags td (lookupKey cmd.data "block") cmd.name)
        (renderItems cmd.args) ∧
      (∀ tags, lookupTags td (lookupKey cmd.data "block") cmd.name = some tags →
        (its = (if (renderItems cmd.args).length > 27 then
            pySlice (renderItems cmd.args) (26 - (tags.length : Int))
          else renderItems cmd.args) ++ tags) ∧
        (tags.length ≤ 26 → (renderItems cmd.args).length > 27 →
          its.length = (26 - tags.length) + tags.length)) := by
  obtain ⟨bd, hb, hargs, _⟩ := buildBlock_dict td cmd
  have hga : (buildBlocks td t).get? i = some (.pyDict bd) := by
    rw [buildBlocks_get?, hc, Option.map_some', hb]
  have hits : itemsAt (buildBlocks td t) i =
      some (applyTags (lookupTags td (lookupKey cmd.data "block") cmd.name)
        (renderItems cmd.args)) := by
    rw [itemsAt, hga]
    simp [blockItems, hargs, lookupKey]
  refine ⟨_, hits, rfl, ?_⟩
  intro tags htags
  rw [htags]
  refine ⟨rfl, ?_⟩
  intro h26 h27
  simp only [applyTags]
  rw [if_pos h27, List.length_append]
  have hsl : (pySlice (renderItems cmd.args) (26 - (tags.length : Int))).length =
      26 - tags.length := by
    unfold pySlice
    rw [if_neg (by omega : ¬(26 - (tags.length : Int) < 0)), List.length_take]
    have ht : (26 - (tags.length : Int)).toNat = 26 - tags.length := by omega
    rw [ht]
    omega
  omega

/-- Witness for `c1_tag_truncation`: 30 rendered items and 2 tags, so
the pre-tag list exceeds 27 and is truncated to 24 entries. -/
theorem c1_tag_truncation_witness :
    ∃ its, itemsAt (buildBlocks tdTwoTags (fooTemplate 30)) 0 = some its ∧
      its = applyTags
        (lookupTags tdTwoTags (lookupKey (fooCmd 30).data "block") (fooCmd 30).name)
        (renderItems (fooCmd 30).args) ∧
      (∀ tags, lookupTags tdTwoTags (lookupKey (fooCmd 30).data "block")
          (fooCmd 30).name = some tags →
        (its = (if (renderItems (fooCmd 30).args).length > 27 then
            pySlice (renderItems (fooCmd 30).args) (26 - (tags.length : Int))
          else renderItems (fooCmd 30).args) ++ tags) ∧
        (tags.length ≤ 26 → (renderItems (fooCmd 30).args).length > 27 →
          its.length = (26 - tags.length) + tags.length)) :=
  c1_tag_truncation tdTwoTags (fooTemplate 30) 0 (fooCmd 30) rfl

/-! ## C7 -/

/-- The `args.items` entry of the `i`-th assembled block is the
rendered-and-tagged item list of the `i`-th command. -/
theorem itemsAt_buildBlocks (td : TagData) (t : DFTemplate) (i : Nat)
    (cmd : CodeBlock) (hc : t.commands.get? i = some cmd) :
    itemsAt (buildBlocks td t) i =
      some (applyTags (lookupTags td (lookupKey cmd.data "block") cmd.name)
        (renderItems cmd.args)) := by
  obtain ⟨bd, hb, hargs, _⟩ := buildBlock_dict td cmd
  have hga : (buildBlocks td t).get? i = some (.pyDict bd) := by
    rw [buildBlocks_get?, hc, Option.map_some', hb]
  rw [itemsAt, hga]
  simp [blockItems, hargs, lookupKey]

/-- When every argument has a recognised type, the item-rendering loop
keeps them all, pairing each with its position. -/
theorem renderItems_enumFrom (args : List TypedValue) :
    ∀ n : Nat, (∀ a ∈ args, a.type ∈ VARIABLE_TYPES) →
    (List.enumFrom n args).filterMap
      (fun p => if p.2.type ∈ VARIABLE_TYPES then some (p.2.format p.1) else none) =
      (List.enumFrom n args).map (fun p => p.2.format p.1) := by
  induction args with
  | nil => intro n _; rfl
  | cons a rest ih =>
    intro n hall
    simp only [List.enumFrom, List.filterMap_cons, List.map_cons]
    rw [if_pos (hall a (by simp))]
    rw [ih (n + 1) (fun x hx => hall x (by simp [hx]))]

theorem renderItems_all (args : List TypedValue)
    (hall : ∀ a ∈ args, a.type ∈ VARIABLE_TYPES) :
    renderItems args = args.enum.map (fun p => p.2.format p.1) :=
  renderItems_enumFrom args 0 hall

theorem enumFrom_map_get? {β : Type} (f : Nat × TypedValue → β) :
    ∀ (args : List TypedValue) (n j : Nat), j < args.length →
      ((List.enumFrom n args).map f).get? j =
        (args.get? j).map (fun a => f (n + j, a)) := by
  intro args
  induction args with
  | nil => intro n j h; exact absurd h (by simp)
  | cons a rest ih =>
    intro n j h
    cases j with
    | zero => simp [List.enumFrom]
    | succ j =>
      simp only [List.enumFrom, List.map_cons, List.get?]
      rw [ih (n + 1) j (by simpa using h)]
      have : n + 1 + j = n + (j + 1) := by omega
      rw [this]

/-- C7 counterexample: 28 arguments, all of recognised variable types,
with one schema tag.  The rendered list is truncated to 25 entries and
the tag appended, so the final items list has 26 entries — its first
28 items cannot carry slots `0..27` (entry 25 is the tag, which has no
slot at all). -/
theorem c7_counterexample :
    DFTemplate.init.playerAction "Foo"
      ((List.range 28).map (fun i => .rInt (i : Int))) "Default" =
      .ok (fooTemplate 28) ∧
    ((fooCmd 28).args.all fun a => decide (a.type ∈ VARIABLE_TYPES)) = true ∧
    (fooCmd 28).args.length = 28 ∧
    (itemsAt (buildBlocks tdOneTag (fooTemplate 28)) 0).map List.length = some 26 ∧
    ((itemsAt (buildBlocks tdOneTag (fooTemplate 28)) 0).bind
      (fun l => l.get? 25)).bind itemSlot = none :=
  ⟨rfl, rfl, rfl, rfl, rfl⟩

/-- C7 (amended): for a block with `N` arguments, all of recognised
variable types, the first `N` entries of the assembled items list are
the arguments rendered in supply order with slots `0..N-1` — provided
the list was not truncated for tag capacity (no tags found, or
`N ≤ 27`). -/
theorem c7_slot_indices (td : TagData) (t : DFTemplate) (i : Nat)
    (cmd : CodeBlock) (N : Nat) (hc : t.commands.get? i = some cmd)
    (hN : cmd.args.length = N)
    (hall : ∀ a ∈ cmd.args, a.type ∈ VARIABLE_TYPES)
    (hnt : lookupTags td (lookupKey cmd.data "block") cmd.name = none ∨ N ≤ 27) :
    ∃ its, itemsAt (buildBlocks td t) i = some its ∧
      its.take N = cmd.args.enum.map (fun p => p.2.format p.1) ∧
      ∀ j, j < N → (its.get? j).bind itemSlot = some (.pyInt (j : Int)) := by
  have hR := renderItems_all cmd.args hall
  have hRlen : (renderItems cmd.args).length = N := by
    rw [hR, List.length_map, List.enum_length, hN]
  have hslot : ∀ j, j < N →
      ((renderItems cmd.args).get? j).bind itemSlot = some (.pyInt (j : Int)) := by
    intro j hj
    rw [hR]
    rw [show cmd.args.enum = List.enumFrom 0 cmd.args from rfl]
    rw [enumFrom_map_get? _ cmd.args 0 j (by omega)]
    rw [List.get?_eq_get (by omega : j < cmd.args.length)]
    simp [itemSlot, TypedValue.format, lookupKey]
  have hits := itemsAt_buildBlocks td t i cmd hc
  cases hnt with
  | inl hnone =>
    refine ⟨renderItems cmd.args, ?_, ?_, ?_⟩
    · rw [hits, hnone]; rfl
    · rw [← hRlen, List.take_length, hR]
    · exact hslot
  | inr hle =>
    cases htags : lookupTags td (lookupKey cmd.data "block") cmd.name with
    | none =>
      refine ⟨renderItems cmd.args, ?_, ?_, ?_⟩
      · rw [hits, htags]; rfl
      · rw [← hRlen, List.take_length, hR]
      · exact hslot
    | some tags =>
      refine ⟨renderItems cmd.args ++ tags, ?_, ?_, ?_⟩
      · rw [hits, htags]
        simp only [applyTags]
        rw [if_neg (by omega)]
      · rw [← hRlen, List.take_left, hR]
      · intro j hj
        rw [List.get?_append (by omega)]
        exact hslot j hj

/-- Witness for `c7_slot_indices`: three numeric arguments, no tags. -/
theorem c7_slot_indices_witness :
    ∃ its, itemsAt (buildBlocks tdEmpty (fooTemplate 3)) 0 = some its ∧
      its.take 3 = (fooCmd 3).args.enum.map (fun p => p.2.format p.1) ∧
      ∀ j, j < 3 → (its.get? j).bind itemSlot = some (.pyInt (j : Int)) :=
  c7_slot_indices tdEmpty (fooTemplate 3) 0 (fooCmd 3) 3 rfl rfl
    (by intro a ha; fin_cases ha <;> decide) (.inr (by omega))

/-! ## Base64 round trip -/

theorem b64Index_b64Char : ∀ n, n < 64 → b64Index (b64Char n) = some n := by decide

theorem b64Index_pad : b64Index '=' = none := by decide

theorem b64decode_b64encode : ∀ bs : List Nat, (∀ b ∈ bs, b < 256) →
    b64decode (b64encode bs) = some bs
  | [], _ => rfl
  | [a], h => by
    have ha : a < 256 := h a (by simp)
    have h1 : b64Index (b64Char (a / 4)) = some (a / 4) :=
      b64Index_b64Char _ (by omega)
    have h2 : b64Index (b64Char (a % 4 * 16)) = some (a % 4 * 16) :=
      b64Index_b64Char _ (by omega)
    have e0 : a % 4 * 16 % 16 = 0 := by omega
    have e1 : a / 4 * 4 + a % 4 * 16 / 16 = a := by omega
    simp [b64encode, b64decode, h1, h2, b64Index_pad, e0]
    omega
  | [a, b], h => by
    have ha : a < 256 := h a (by simp)
    have hb : b < 256 := h b (by simp)
    have h1 : b64Index (b64Char (a / 4)) = some (a / 4) :=
      b64Index_b64Char _ (by omega)
    have h2 : b64Index (b64Char (a % 4 * 16 + b / 16)) = some (a % 4 * 16 + b / 16) :=
      b64Index_b64Char _ (by omega)
    have h3 : b64Index (b64Char (b % 16 * 4)) = some (b % 16 * 4) :=
      b64Index_b64Char _ (by omega)
    have e0 : b % 16 * 4 % 4 = 0 := by omega
    have e1 : a / 4 * 4 + (a % 4 * 16 + b / 16) / 16 = a := by omega
    have e2 : (a % 4 * 16 + b / 16) % 16 * 16 + b % 16 * 4 / 4 = b := by omega
    simp [b64encode, b64decode, h1, h2, h3, b64Index_pad, e0]
    omega
  | a :: b :: c :: d2 :: rest, h => by
    have ha : a < 256 := h a (by simp)
    have hb : b < 256 := h b (by simp)
    have hc : c < 256 := h c (by simp)
    have h1 : b64Index (b64Char (a / 4)) = some (a / 4) :=
      b64Index_b64Char _ (by omega)
    have h2 : b64Index (b64Char (a % 4 * 16 + b / 16)) = some (a % 4 * 16 + b / 16) :=
      b64Index_b64Char _ (by omega)
    have h3 : b64Index (b64Char (b % 16 * 4 + c / 64)) = some (b % 16 * 4 + c / 64) :=
      b64Index_b64Char _ (by omega)
    have h4 : b64Index (b64Char (c % 64)) = some (c % 64) := b64Index_b64Char _ (by omega)
    have ih := b64decode_b64encode (d2 :: rest) (fun x hx => h x (by simp [hx]))
    have e1 : a / 4 * 4 + (a % 4 * 16 + b / 16) / 16 = a := by omega
    have e2 : (a % 4 * 16 + b / 16) % 16 * 16 + (b % 16 * 4 + c / 64) / 4 = b := by omega
    have e3 : (b % 16 * 4 + c / 64) % 4 * 64 + c % 64 = c := by omega
    simp [b64encode, b64decode, h1, h2, h3, h4, ih]
    omega
  | [a, b, c], h => by
    have ha : a < 256 := h a (by simp)
    have hb : b < 256 := h b (by simp)
    have hc : c < 256 := h c (by simp)
    have h1 : b64Index (b64Char (a / 4)) = some (a / 4) :=
      b64Index_b64Char _ (by omega)
    have h2 : b64Index (b64Char (a % 4 * 16 + b / 16)) = some (a % 4 * 16 + b / 16) :=
      b64Index_b64Char _ (by omega)
    have h3 : b64Index (b64Char (b % 16 * 4 + c / 64)) = some (b % 16 * 4 + c / 64) :=
      b64Index_b64Char _ (by omega)
    have h4 : b64Index (b64Char (c % 64)) = some (c % 64) := b64Index_b64Char _ (by omega)
    have e1 : a / 4 * 4 + (a % 4 * 16 + b / 16) / 16 = a := by omega
    have e2 : (a % 4 * 16 + b / 16) % 16 * 16 + (b % 16 * 4 + c / 64) / 4 = b := by omega
    have e3 : (b % 16 * 4 + c / 64) % 4 * 64 + c % 64 = c := by omega
    simp [b64encode, b64decode, h1, h2, h3, h4]
    omega

/-! ## Decimal round trip -/

theorem digitChar_toNat : ∀ n, n < 10 → (digitChar n).toNat = 48 + n := by decide

theorem digitChar_isDigit : ∀ n, n < 10 → (digitChar n).isDigit = true := by decide

theorem digit_not_special (c : Char) (h : c.isDigit = true) :
    c ≠ 'N' ∧ c ≠ '\'' ∧ c ≠ '"' ∧ c ≠ '[' ∧ c ≠ '{' ∧ c ≠ '-' := by
  refine ⟨?_, ?_, ?_, ?_, ?_, ?_⟩ <;> rintro rfl <;> exact absurd h (by decide)

theorem parseDigits_spec : ∀ (l : List Char) (rest : List Char) (acc : Nat),
    (∀ c ∈ l, c.isDigit = true) → noDigitHead rest →
    parseDigits (l ++ rest) acc = (digitsToNat l acc, rest)
  | [], rest, acc, _, hrest => by
    cases rest with
    | nil => rfl
    | cons c r =>
      simp only [List.nil_append, parseDigits, digitsToNat, List.foldl_nil]
      rw [if_neg (by simp [noDigitHead] at hrest; simp [hrest])]
  | d :: l', rest, acc, hdig, hrest => by
    simp only [List.cons_append, parseDigits]
    rw [if_pos (hdig d (by simp))]
    rw [show l'.append rest = l' ++ rest from rfl]
    rw [parseDigits_spec l' rest (acc * 10 + (d.toNat - 48))
      (fun c hc => hdig c (by simp [hc])) hrest]
    rfl

theorem natDigitsAux_digits : ∀ (f n : Nat), n < f →
    ∀ c ∈ natDigitsAux f n, c.isDigit = true := by
  intro f
  induction f with
  | zero => intro n h; omega
  | succ f ih =>
    intro n _ c hc
    by_cases h10 : n < 10
    · simp only [natDigitsAux, if_pos h10] at hc
      simp only [List.mem_singleton] at hc
      subst hc
      exact digitChar_isDigit n h10
    · simp only [natDigitsAux, if_neg h10] at hc
      rcases List.mem_append.mp hc with h1 | h2
      · exact ih (n / 10) (by omega) c h1
      · simp only [List.mem_singleton] at h2
        subst h2
        exact digitChar_isDigit _ (by omega)

theorem natDigitsAux_ne_nil (f n : Nat) (h : n < f) : natDigitsAux f n ≠ [] := by
  cases f with
  | zero => omega
  | succ f =>
    by_cases h10 : n < 10 <;> simp [natDigitsAux, h10]

theorem digitsToNat_natDigitsAux : ∀ (f n acc : Nat), n < f →
    digitsToNat (natDigitsAux f n) acc =
      acc * 10 ^ (natDigitsAux f n).length + n := by
  intro f
  induction f with
  | zero => intro n acc h; omega
  | succ f ih =>
    intro n acc _
    by_cases h10 : n < 10
    · simp only [natDigitsAux, if_pos h10, digitsToNat, List.foldl_cons,
        List.foldl_nil, List.length_singleton, pow_one]
      rw [digitChar_toNat n h10]
      omega
    · simp only [natDigitsAux, if_neg h10, digitsToNat, List.foldl_append,
        List.foldl_cons, List.foldl_nil, List.length_append,
        List.length_singleton]
      have := ih (n / 10) acc (by omega)
      simp only [digitsToNat] at this
      rw [this, digitChar_toNat _ (by omega)]
      rw [pow_succ]
      have hmod : 48 + n % 10 - 48 = n % 10 := by omega
      rw [hmod]
      have : n / 10 * 10 + n % 10 = n := by omega
      ring_nf
      omega

theorem natDigits_parse (n : Nat) (rest : List Char) (hrest : noDigitHead rest) :
    parseDigits (natDigits n ++ rest) 0 = (n, rest) := by
  rw [parseDigits_spec (natDigits n) rest 0
    (natDigitsAux_digits (n + 1) n (by omega)) hrest]
  rw [show natDigits n = natDigitsAux (n + 1) n from rfl,
    digitsToNat_natDigitsAux (n + 1) n 0 (by omega)]
  simp

theorem parseIntFrom_renderInt (i : Int) (rest : List Char)
    (hrest : noDigitHead rest) :
    parseIntFrom (renderInt i ++ rest) = some (i, rest) := by
  cases i with
  | ofNat n =>
    obtain ⟨d, l', hd⟩ : ∃ d l', natDigits n = d :: l' := by
      cases hnd : natDigits n with
      | nil => exact absurd hnd (natDigitsAux_ne_nil (n + 1) n (by omega))
      | cons d l' => exact ⟨d, l', rfl⟩
    have hdd : d.isDigit = true :=
      natDigitsAux_digits (n + 1) n (by omega) d (by rw [show natDigits n = natDigitsAux (n+1) n from rfl] at hd; rw [hd]; simp)
    have hparse := natDigits_parse n rest hrest
    rw [hd] at hparse
    simp only [renderInt, hd, List.cons_append, parseIntFrom]
    rw [if_neg (digit_not_special d hdd).2.2.2.2.2, if_pos hdd]
    simp only [List.cons_append] at hparse
    rw [hparse]
    rfl
  | negSucc m =>
    obtain ⟨d, l', hd⟩ : ∃ d l', natDigits (m + 1) = d :: l' := by
      cases hnd : natDigits (m + 1) with
      | nil => exact absurd hnd (natDigitsAux_ne_nil (m + 2) (m + 1) (by omega))
      | cons d l' => exact ⟨d, l', rfl⟩
    have hdd : d.isDigit = true :=
      natDigitsAux_digits (m + 2) (m + 1) (by omega) d (by rw [show natDigits (m+1) = natDigitsAux (m+2) (m+1) from rfl] at hd; rw [hd]; simp)
    have hparse := natDigits_parse (m + 1) rest hrest
    rw [hd] at hparse
    simp only [renderInt, hd, List.cons_append, parseIntFrom]
    simp only [if_true]
    simp only [List.cons_append] at hparse
    rw [if_pos hdd, hparse]
    simp [Int.negSucc_eq]

/-! ## String literal round trip -/

theorem hexVal_toHexChar : ∀ k, k < 16 → hexVal (toHexChar k) = some k := by decide

theorem char_toNat_lt (c : Char) : c.toNat < 1114112 := by
  obtain ⟨val, valid⟩ := c
  show val.toNat < 1114112
  rcases valid with h | ⟨_, h2⟩
  · have := @UInt32.toNat_lt_of_lt val 55296 (by decide) h
    omega
  · have := @UInt32.toNat_lt_of_lt val 1114112 (by decide) h2
    omega

theorem psb_nil (q : Char) : parseStrBody q [] = none := rfl

theorem psb_cons (q c : Char) (rest : List Char) :
    parseStrBody q (c :: rest) =
      if c = '\\' then parseEsc q rest
      else if c = q then some ([], rest)
      else (parseStrBody q rest).map fun p => (c :: p.1, p.2) := rfl

theorem pesc_bs (q : Char) (r : List Char) :
    parseEsc q ('\\' :: r) = (parseStrBody q r).map fun p => ('\\' :: p.1, p.2) := rfl

theorem pesc_sq (q : Char) (r : List Char) :
    parseEsc q ('\'' :: r) = (parseStrBody q r).map fun p => ('\'' :: p.1, p.2) := rfl

theorem pesc_dq (q : Char) (r : List Char) :
    parseEsc q ('"' :: r) = (parseStrBody q r).map fun p => ('"' :: p.1, p.2) := rfl

theorem pesc_n (q : Char) (r : List Char) :
    parseEsc q ('n' :: r) = (parseStrBody q r).map fun p => ('\n' :: p.1, p.2) := rfl

theorem pesc_r (q : Char) (r : List Char) :
    parseEsc q ('r' :: r) = (parseStrBody q r).map fun p => ('\r' :: p.1, p.2) := rfl

theorem pesc_t (q : Char) (r : List Char) :
    parseEsc q ('t' :: r) = (parseStrBody q r).map fun p => ('\t' :: p.1, p.2) := rfl

theorem pesc_x (q h1 h2 : Char) (r : List Char) :
    parseEsc q ('x' :: h1 :: h2 :: r) = (do
      let a ← hexVal h1
      let b ← hexVal h2
      (parseStrBody q r).map fun p => (Char.ofNat (a * 16 + b) :: p.1, p.2)) := rfl

theorem pesc_u (q h1 h2 h3 h4 : Char) (r : List Char) :
    parseEsc q ('u' :: h1 :: h2 :: h3 :: h4 :: r) = (do
      let a ← hexVal h1
      let b ← hexVal h2
      let c ← hexVal h3
      let d ← hexVal h4
      (parseStrBody q r).map fun p =>
        (Char.ofNat (a * 4096 + b * 256 + c * 16 + d) :: p.1, p.2)) := rfl

theorem pesc_U (q h1 h2 h3 h4 h5 h6 h7 h8 : Char) (r : List Char) :
    parseEsc q ('U' :: h1 :: h2 :: h3 :: h4 :: h5 :: h6 :: h7 :: h8 :: r) = (do
      let a ← hexVal h1
      let b ← hexVal h2
      let c ← hexVal h3
      let d ← hexVal h4
      let e ← hexVal h5
      let f ← hexVal h6
      let g ← hexVal h7
      let h ← hexVal h8
      (parseStrBody q r).map fun p =>
        (Char.ofNat (((a * 4096 + b * 256 + c * 16 + d) * 65536 : Nat) +
          (e * 4096 + f * 256 + g * 16 + h)) :: p.1, p.2)) := rfl

theorem parseStrBody_escaped (q : Char) (hq : q = '\'' ∨ q = '"') :
    ∀ (l rest : List Char),
      parseStrBody q (l.flatMap (escapeChar q) ++ q :: rest) = some (l, rest) := by
  intro l
  induction l with
  | nil =>
    intro rest
    rw [List.flatMap_nil, List.nil_append, psb_cons]
    rcases hq with h | h <;> subst h
    · rw [if_neg (by decide), if_pos rfl]
    · rw [if_neg (by decide), if_pos rfl]
  | cons c l' ih =>
    intro rest
    rw [List.flatMap_cons, List.append_assoc]
    by_cases h1 : c = '\\'
    · subst h1
      have he : escapeChar q '\\' = ['\\', '\\'] := by simp [escapeChar]
      rw [he, List.cons_append, List.cons_append, List.nil_append,
        psb_cons, if_pos rfl, pesc_bs, ih rest]
      rfl
    by_cases h2 : c = q
    · subst h2
      have he : escapeChar c c = ['\\', c] := by
        simp only [escapeChar, if_neg h1, if_pos rfl, if_true]
      rw [he, List.cons_append, List.cons_append, List.nil_append,
        psb_cons, if_pos rfl]
      rcases hq with h | h <;> subst h
      · rw [pesc_sq, ih rest]; rfl
      · rw [pesc_dq, ih rest]; rfl
    by_cases h3 : c = '\n'
    · subst h3
      have he : escapeChar q '\n' = ['\\', 'n'] := by
        simp only [escapeChar, if_neg (by decide : ¬('\n' = '\\')), if_neg h2,
          if_pos rfl, if_true]
      rw [he, List.cons_append, List.cons_append, List.nil_append,
        psb_cons, if_pos rfl, pesc_n, ih rest]
      rfl
    by_cases h4 : c = '\r'
    · subst h4
      have he : escapeChar q '\r' = ['\\', 'r'] := by
        simp only [escapeChar, if_neg (by decide : ¬('\r' = '\\')), if_neg h2,
          if_neg (by decide : ¬('\r' = '\n')), if_pos rfl, if_true]
      rw [he, List.cons_append, List.cons_append, List.nil_append,
        psb_cons, if_pos rfl, pesc_r, ih rest]
      rfl
    by_cases h5 : c = '\t'
    · subst h5
      have he : escapeChar q '\t' = ['\\', 't'] := by
        simp only [escapeChar, if_neg (by decide : ¬('\t' = '\\')), if_neg h2,
          if_neg (by decide : ¬('\t' = '\n')), if_neg (by decide : ¬('\t' = '\r')),
          if_pos rfl, if_true]
      rw [he, List.cons_append, List.cons_append, List.nil_append,
        psb_cons, if_pos rfl, pesc_t, ih rest]
      rfl
    by_cases h6 : 32 ≤ c.toNat ∧ c.toNat < 127
    · have he : escapeChar q c = [c] := by
        simp only [escapeChar, if_neg h1, if_neg h2, if_neg h3, if_neg h4, if_neg h5,
          if_pos h6]
      rw [he, List.cons_append, List.nil_append, psb_cons, if_neg h1, if_neg h2,
        ih rest]
      rfl
    by_cases h7 : c.toNat < 256
    · have he : escapeChar q c = '\\' :: 'x' :: hex2 c.toNat := by
        simp only [escapeChar, if_neg h1, if_neg h2, if_neg h3, if_neg h4, if_neg h5,
          if_neg h6, if_pos h7]
      rw [he]
      simp only [hex2, List.cons_append, List.nil_append]
      rw [psb_cons, if_pos rfl, pesc_x,
        hexVal_toHexChar _ (by omega), hexVal_toHexChar _ (by omega)]
      simp only [Option.bind_eq_bind, Option.some_bind]
      rw [ih rest]
      have harith : c.toNat / 16 % 16 * 16 + c.toNat % 16 = c.toNat := by omega
      simp [harith, Char.ofNat_toNat]
    by_cases h8 : c.toNat < 65536
    · have he : escapeChar q c = '\\' :: 'u' :: hex4 c.toNat := by
        simp only [escapeChar, if_neg h1, if_neg h2, if_neg h3, if_neg h4, if_neg h5,
          if_neg h6, if_neg h7, if_pos h8]
      rw [he]
      simp only [hex4, List.cons_append, List.nil_append]
      rw [psb_cons, if_pos rfl, pesc_u,
        hexVal_toHexChar _ (by omega), hexVal_toHexChar _ (by omega),
        hexVal_toHexChar _ (by omega), hexVal_toHexChar _ (by omega)]
      simp only [Option.bind_eq_bind, Option.some_bind]
      rw [ih rest]
      have harith : c.toNat / 4096 % 16 * 4096 + c.toNat / 256 % 16 * 256 +
          c.toNat / 16 % 16 * 16 + c.toNat % 16 = c.toNat := by omega
      simp [harith, Char.ofNat_toNat]
    · have he : escapeChar q c = '\\' :: 'U' :: hex8 c.toNat := by
        simp only [escapeChar, if_neg h1, if_neg h2, if_neg h3, if_neg h4, if_neg h5,
          if_neg h6, if_neg h7, if_neg h8]
      rw [he]
      simp only [hex8, hex4, List.cons_append, List.nil_append, List.append_assoc]
      rw [psb_cons, if_pos rfl, pesc_U,
        hexVal_toHexChar _ (by omega), hexVal_toHexChar _ (by omega),
        hexVal_toHexChar _ (by omega), hexVal_toHexChar _ (by omega),
        hexVal_toHexChar _ (by omega), hexVal_toHexChar _ (by omega),
        hexVal_toHexChar _ (by omega), hexVal_toHexChar _ (by omega)]
      simp only [Option.bind_eq_bind, Option.some_bind]
      rw [ih rest]
      have hlt := char_toNat_lt c
      have harith : (c.toNat / 65536 / 4096 % 16 * 4096 +
          c.toNat / 65536 / 256 % 16 * 256 + c.toNat / 65536 / 16 % 16 * 16 +
          c.toNat / 65536 % 16) * 65536 +
          (c.toNat % 65536 / 4096 % 16 * 4096 + c.toNat % 65536 / 256 % 16 * 256 +
          c.toNat % 65536 / 16 % 16 * 16 + c.toNat % 65536 % 16) = c.toNat := by
        omega
      simp [harith, Char.ofNat_toNat]

theorem reprQuote_cases (s : String) : reprQuote s = '\'' ∨ reprQuote s = '"' := by
  unfold reprQuote
  by_cases h : '\'' ∈ s.data ∧ '"' ∉ s.data <;> simp [h]

theorem parseKeyStr_reprStr (s : String) (rest : List Char) :
    parseKeyStr (reprStr s ++ rest) = some (s, rest) := by
  obtain ⟨l⟩ := s
  have hb := parseStrBody_escaped (reprQuote ⟨l⟩) (reprQuote_cases ⟨l⟩) l rest
  rcases reprQuote_cases ⟨l⟩ with h | h <;>
    · rw [h] at hb
      simp only [reprStr, h, List.cons_append, List.append_assoc,
        List.singleton_append, List.nil_append]
      simp only [parseKeyStr]
      rw [hb]
      rfl

/-! ## Value round trip: equation lemmas -/

theorem pv_zero (input : List Char) : parseVal 0 input = none := rfl

theorem pv_nil (f : Nat) : parseVal (f + 1) [] = none := rfl

theorem pv_cons (f : Nat) (c : Char) (r : List Char) :
    parseVal (f + 1) (c :: r) =
      (if c = 'N' then parseNoneTail r
      else if c = '\'' then
        (parseStrBody '\'' r).map fun p => (.pyStr (String.mk p.1), p.2)
      else if c = '"' then
        (parseStrBody '"' r).map fun p => (.pyStr (String.mk p.1), p.2)
      else if c = '[' then parseListStart f r
      else if c = '{' then parseDictStart f r
      else (parseIntFrom (c :: r)).map fun p => (.pyInt p.1, p.2)) := rfl

theorem pls_rbr (f : Nat) (r : List Char) :
    parseListStart (f + 1) (']' :: r) = some (.pyList [], r) := rfl

theorem pds_rbr (f : Nat) (r : List Char) :
    parseDictStart (f + 1) ('}' :: r) = some (.pyDict [], r) := rfl

theorem pls_cons (f : Nat) (c : Char) (r : List Char) (hc : c ≠ ']') :
    parseListStart (f + 1) (c :: r) =
      (parseItems f (c :: r)).map fun p => (.pyList p.1, p.2) := by
  show (if c = ']' then some (PyVal.pyList [], r)
    else (parseItems f (c :: r)).map fun p => (.pyList p.1, p.2)) = _
  rw [if_neg hc]

theorem pds_cons (f : Nat) (c : Char) (r : List Char) (hc : c ≠ '}') :
    parseDictStart (f + 1) (c :: r) =
      (parseEntries f (c :: r)).map fun p => (.pyDict p.1, p.2) := by
  show (if c = '}' then some (PyVal.pyDict [], r)
    else (parseEntries f (c :: r)).map fun p => (.pyDict p.1, p.2)) = _
  rw [if_neg hc]

theorem pi_succ (f : Nat) (input : List Char) :
    parseItems (f + 1) input = (parseVal f input).bind (parseItemsTail f) := rfl

theorem pit_rbr (f : Nat) (v : PyVal) (r2 : List Char) :
    parseItemsTail (f + 1) (v, ']' :: r2) = some ([v], r2) := rfl

theorem pit_comma (f : Nat) (v : PyVal) (r2 : List Char) :
    parseItemsTail (f + 1) (v, ',' :: ' ' :: r2) =
      (parseItems f r2).map fun p => (v :: p.1, p.2) := rfl

theorem pe_succ (f : Nat) (input : List Char) :
    parseEntries (f + 1) input = (parseKeyStr input).bind (parseEntrySep f) := rfl

theorem pes_colon (f : Nat) (k : String) (r2 : List Char) :
    parseEntrySep (f + 1) (k, ':' :: ' ' :: r2) =
      (parseVal f r2).bind (parseEntryVal f k) := rfl

theorem pev_rbr (f : Nat) (k : String) (v : PyVal) (r4 : List Char) :
    parseEntryVal (f + 1) k (v, '}' :: r4) = some ([(k, v)], r4) := rfl

theorem pev_comma (f : Nat) (k : String) (v : PyVal) (r4 : List Char) :
    parseEntryVal (f + 1) k (v, ',' :: ' ' :: r4) =
      (parseEntries f r4).map fun p => ((k, v) :: p.1, p.2) := rfl

theorem rv_none : renderVal .pyNone = ['N', 'o', 'n', 'e'] := rfl

theorem rv_int (n : Int) : renderVal (.pyInt n) = renderInt n := rfl

theorem rv_str (s : String) : renderVal (.pyStr s) = reprStr s := rfl

theorem rv_list (xs : List PyVal) :
    renderVal (.pyList xs) = '[' :: (renderElems xs ++ [']']) := rfl

theorem rv_dict (xs : List (String × PyVal)) :
    renderVal (.pyDict xs) = '{' :: (renderEntries xs ++ ['}']) := rfl

theorem re_single (v : PyVal) : renderElems [v] = renderVal v := rfl

theorem re_cons (v w : PyVal) (more : List PyVal) :
    renderElems (v :: w :: more) =
      renderVal v ++ ',' :: ' ' :: renderElems (w :: more) := rfl

theorem rent_single (k : String) (v : PyVal) :
    renderEntries [(k, v)] = reprStr k ++ ':' :: ' ' :: renderVal v := rfl

theorem rent_cons (k : String) (v : PyVal) (e : String × PyVal)
    (more : List (String × PyVal)) :
    renderEntries ((k, v) :: e :: more) =
      reprStr k ++ ':' :: ' ' :: renderVal v ++ ',' :: ' ' ::
        renderEntries (e :: more) := rfl

theorem ndh_nil : noDigitHead [] := trivial

theorem ndh_cons (c : Char) (r : List Char) (h : c.isDigit = false) :
    noDigitHead (c :: r) := h

theorem pyFuel_pos : ∀ v : PyVal, 1 ≤ pyFuel v
  | .pyNone => le_refl 1
  | .pyInt _ => le_refl 1
  | .pyStr _ => le_refl 1
  | .pyList _ => by simp only [pyFuel]; omega
  | .pyDict _ => by simp only [pyFuel]; omega

theorem digit_ne_brk (c : Char) (h : c.isDigit = true) : c ≠ ']' ∧ c ≠ '}' := by
  constructor <;> rintro rfl <;> exact absurd h (by decide)

/-- Every rendered value starts with a character, and that character is
neither `']'` nor `'}'`. -/
theorem renderVal_head_ne (v : PyVal) :
    ∃ c cs, renderVal v = c :: cs ∧ c ≠ ']' ∧ c ≠ '}' := by
  cases v with
  | pyNone => exact ⟨'N', _, rfl, by decide, by decide⟩
  | pyInt n =>
    cases n with
    | ofNat m =>
      obtain ⟨d, l', hd⟩ : ∃ d l', natDigits m = d :: l' := by
        cases hnd : natDigits m with
        | nil => exact absurd hnd (natDigitsAux_ne_nil (m + 1) m (by omega))
        | cons d l' => exact ⟨d, l', rfl⟩
      have hdd : d.isDigit = true := natDigitsAux_digits (m + 1) m (by omega) d
        (by rw [show natDigits m = natDigitsAux (m + 1) m from rfl] at hd
            rw [hd]; simp)
      exact ⟨d, l', by rw [rv_int]; simp [renderInt, hd],
        (digit_ne_brk d hdd).1, (digit_ne_brk d hdd).2⟩
    | negSucc m => exact ⟨'-', _, rfl, by decide, by decide⟩
  | pyStr s =>
    rcases reprQuote_cases s with h | h
    · exact ⟨'\'', s.data.flatMap (escapeChar '\'') ++ ['\''],
        by rw [rv_str]; simp [reprStr, h], by decide, by decide⟩
    · exact ⟨'"', s.data.flatMap (escapeChar '"') ++ ['"'],
        by rw [rv_str]; simp [reprStr, h], by decide, by decide⟩
  | pyList xs => exact ⟨'[', _, rfl, by decide, by decide⟩
  | pyDict xs => exact ⟨'{', _, rfl, by decide, by decide⟩

/-! ## Value round trip -/

theorem parse_render : ∀ f : Nat,
    (∀ (v : PyVal) (rest : List Char), pyFuel v ≤ f → noDigitHead rest →
      parseVal f (renderVal v ++ rest) = some (v, rest)) ∧
    (∀ (xs : List PyVal) (rest : List Char), xs ≠ [] → elemsFuel xs ≤ f →
      parseItems f (renderElems xs ++ ']' :: rest) = some (xs, rest)) ∧
    (∀ (xs : List (String × PyVal)) (rest : List Char), xs ≠ [] →
      entriesFuel xs ≤ f →
      parseEntries f (renderEntries xs ++ '}' :: rest) = some (xs, rest)) := by
  intro f
  induction f using Nat.strong_induction_on with
  | _ f ih =>
    cases f with
    | zero =>
      refine ⟨?_, ?_, ?_⟩
      · intro v rest hf _
        have := pyFuel_pos v
        omega
      · intro xs rest hne hf
        cases xs with
        | nil => exact absurd rfl hne
        | cons v more =>
          simp only [elemsFuel] at hf
          have := pyFuel_pos v
          omega
      · intro xs rest hne hf
        cases xs with
        | nil => exact absurd rfl hne
        | cons e more =>
          obtain ⟨k, v⟩ := e
          simp only [entriesFuel] at hf
          have := pyFuel_pos v
          omega
    | succ g =>
      refine ⟨?_, ?_, ?_⟩
      · -- values
        intro v rest hf hrest
        cases v with
        | pyNone =>
          rw [rv_none]
          simp only [List.cons_append, List.nil_append]
          rw [pv_cons, if_pos rfl]
          rfl
        | pyInt n =>
          rw [rv_int]
          cases n with
          | ofNat m =>
            obtain ⟨d, l', hd⟩ : ∃ d l', natDigits m = d :: l' := by
              cases hnd : natDigits m with
              | nil => exact absurd hnd (natDigitsAux_ne_nil (m + 1) m (by omega))
              | cons d l' => exact ⟨d, l', rfl⟩
            have hdd : d.isDigit = true := natDigitsAux_digits (m + 1) m (by omega) d
              (by rw [show natDigits m = natDigitsAux (m + 1) m from rfl] at hd
                  rw [hd]; simp)
            have hspec := digit_not_special d hdd
            have hint := parseIntFrom_renderInt (Int.ofNat m) rest hrest
            rw [show renderInt (Int.ofNat m) = natDigits m from rfl, hd,
              List.cons_append] at hint ⊢
            rw [pv_cons, if_neg hspec.1, if_neg hspec.2.1, if_neg hspec.2.2.1,
              if_neg hspec.2.2.2.1, if_neg hspec.2.2.2.2.1, hint]
            rfl
          | negSucc m =>
            have hint := parseIntFrom_renderInt (Int.negSucc m) rest hrest
            rw [show renderInt (Int.negSucc m) = '-' :: natDigits (m + 1) from rfl,
              List.cons_append] at hint ⊢
            rw [pv_cons, if_neg (by decide), if_neg (by decide), if_neg (by decide),
              if_neg (by decide), if_neg (by decide), hint]
            rfl
        | pyStr s =>
          obtain ⟨ls⟩ := s
          rw [rv_str]
          rcases reprQuote_cases ⟨ls⟩ with h | h
          · have hr : reprStr ⟨ls⟩ =
                '\'' :: (ls.flatMap (escapeChar '\'') ++ ['\'']) := by
              simp [reprStr, h]
            rw [hr, List.cons_append, List.append_assoc, List.singleton_append]
            rw [pv_cons, if_neg (by decide), if_pos rfl]
            rw [parseStrBody_escaped '\'' (Or.inl rfl) ls rest]
            rfl
          · have hr : reprStr ⟨ls⟩ =
                '"' :: (ls.flatMap (escapeChar '"') ++ ['"']) := by
              simp [reprStr, h]
            rw [hr, List.cons_append, List.append_assoc, List.singleton_append]
            rw [pv_cons, if_neg (by decide), if_neg (by decide), if_pos rfl]
            rw [parseStrBody_escaped '"' (Or.inr rfl) ls rest]
            rfl
        | pyList xs =>
          simp only [pyFuel] at hf
          obtain ⟨g', rfl⟩ : ∃ g', g = g' + 1 := ⟨g - 1, by omega⟩
          rw [rv_list, List.cons_append, List.append_assoc, List.singleton_append]
          rw [pv_cons, if_neg (by decide), if_neg (by decide), if_neg (by decide),
            if_pos rfl]
          cases xs with
          | nil =>
            rw [show renderElems [] = [] from rfl, List.nil_append, pls_rbr]
          | cons v more =>
            obtain ⟨c, cs, hcs, hc1, _⟩ := renderVal_head_ne v
            obtain ⟨t, ht⟩ : ∃ t, renderElems (v :: more) = renderVal v ++ t := by
              cases more with
              | nil => exact ⟨[], by rw [re_single, List.append_nil]⟩
              | cons w m2 => exact ⟨_, re_cons v w m2⟩
            rw [ht, hcs]
            simp only [List.cons_append, List.append_assoc]
            rw [pls_cons _ c _ hc1]
            have hback : c :: (cs ++ (t ++ ']' :: rest)) =
                renderElems (v :: more) ++ ']' :: rest := by
              rw [ht, hcs]
              simp [List.cons_append, List.append_assoc]
            rw [hback]
            rw [(ih g' (by omega)).2.1 (v :: more) rest (by simp) (by omega)]
            rfl
        | pyDict xs =>
          simp only [pyFuel] at hf
          obtain ⟨g', rfl⟩ : ∃ g', g = g' + 1 := ⟨g - 1, by omega⟩
          rw [rv_dict, List.cons_append, List.append_assoc, List.singleton_append]
          rw [pv_cons, if_neg (by decide), if_neg (by decide), if_neg (by decide),
            if_neg (by decide), if_pos rfl]
          cases xs with
          | nil =>
            rw [show renderEntries [] = [] from rfl, List.nil_append, pds_rbr]
          | cons e more =>
            obtain ⟨k, v⟩ := e
            obtain ⟨q, hq⟩ : ∃ q, reprQuote k = q := ⟨_, rfl⟩
            have hqc : q = '\'' ∨ q = '"' := hq ▸ reprQuote_cases k
            obtain ⟨t, ht⟩ : ∃ t, renderEntries ((k, v) :: more) =
                reprStr k ++ (':' :: ' ' :: renderVal v ++ t) := by
              cases more with
              | nil =>
                refine ⟨[], ?_⟩
                rw [rent_single, List.append_nil]
              | cons e2 m2 =>
                refine ⟨',' :: ' ' :: renderEntries (e2 :: m2), ?_⟩
                rw [rent_cons]
                simp [List.append_assoc]
            have hqne : q ≠ '}' := by rcases hqc with h | h <;> subst h <;> decide
            have hrepr : ∃ rs, reprStr k = q :: rs :=
              ⟨_, by rw [reprStr, hq]⟩
            obtain ⟨rs, hrs⟩ := hrepr
            rw [ht, hrs]
            simp only [List.cons_append, List.append_assoc]
            rw [pds_cons _ q _ hqne]
            have hback : q :: (rs ++ ':' :: ' ' :: (renderVal v ++
                (t ++ '}' :: rest))) = renderEntries ((k, v) :: more) ++
                '}' :: rest := by
              rw [ht, hrs]
              simp [List.cons_append, List.append_assoc]
            rw [hback]
            rw [(ih g' (by omega)).2.2 ((k, v) :: more) rest (by simp)
              (by omega)]
            rfl
      · -- list items
        intro xs rest hne hf
        cases xs with
        | nil => exact absurd rfl hne
        | cons v more =>
          simp only [elemsFuel] at hf
          have hg1 : 1 ≤ g := by have := pyFuel_pos v; omega
          obtain ⟨b, rfl⟩ : ∃ b, g = b + 1 := ⟨g - 1, by omega⟩
          rw [pi_succ]
          cases more with
          | nil =>
            rw [re_single]
            rw [(ih (b + 1) (by omega)).1 v (']' :: rest) (by omega)
              (ndh_cons _ _ (by decide))]
            rw [Option.some_bind, pit_rbr]
          | cons w more' =>
            rw [re_cons, List.append_assoc, List.cons_append, List.cons_append]
            rw [(ih (b + 1) (by omega)).1 v
              (',' :: ' ' :: (renderElems (w :: more') ++ ']' :: rest))
              (by omega) (ndh_cons _ _ (by decide))]
            rw [Option.some_bind, pit_comma]
            rw [(ih b (by omega)).2.1 (w :: more') rest (by simp) (by omega)]
            rfl
      · -- dict entries
        intro xs rest hne hf
        cases xs with
        | nil => exact absurd rfl hne
        | cons e more =>
          obtain ⟨k, v⟩ := e
          simp only [entriesFuel] at hf
          have hg2 : 2 ≤ g := by have := pyFuel_pos v; omega
          obtain ⟨b, rfl⟩ : ∃ b, g = b + 2 := ⟨g - 2, by omega⟩
          rw [pe_succ]
          cases more with
          | nil =>
            rw [rent_single, List.append_assoc]
            simp only [List.cons_append]
            rw [parseKeyStr_reprStr k
              (':' :: ' ' :: (renderVal v ++ '}' :: rest))]
            rw [Option.some_bind, pes_colon]
            rw [(ih (b + 1) (by omega)).1 v ('}' :: rest) (by omega)
              (ndh_cons _ _ (by decide))]
            rw [Option.some_bind, pev_rbr]
          | cons e2 more' =>
            rw [rent_cons]
            simp only [List.append_assoc, List.cons_append]
            rw [parseKeyStr_reprStr k (':' :: ' ' :: (renderVal v ++
              (',' :: ' ' :: (renderEntries (e2 :: more') ++ '}' :: rest))))]
            rw [Option.some_bind, pes_colon]
            rw [(ih (b + 1) (by omega)).1 v
              (',' :: ' ' :: (renderEntries (e2 :: more') ++ '}' :: rest))
              (by omega) (ndh_cons _ _ (by decide))]
            rw [Option.some_bind, pev_comma]
            rw [(ih b (by omega)).2.2 (e2 :: more') rest (by simp) (by omega)]
            rfl

/-! ## Fuel bounds -/

theorem renderInt_ne_nil (n : Int) : (renderInt n).length ≥ 1 := by
  cases n with
  | ofNat m =>
    obtain ⟨d, l', hd⟩ : ∃ d l', natDigits m = d :: l' := by
      cases hnd : natDigits m with
      | nil => exact absurd hnd (natDigitsAux_ne_nil (m + 1) m (by omega))
      | cons d l' => exact ⟨d, l', rfl⟩
    simp [renderInt, hd]
  | negSucc m => simp [renderInt]

mutual

theorem pyFuel_le : ∀ v : PyVal, pyFuel v ≤ 2 * (renderVal v).length
  | .pyNone => by simp [pyFuel, rv_none]
  | .pyInt n => by
    have := renderInt_ne_nil n
    simp only [pyFuel, rv_int]
    omega
  | .pyStr s => by
    simp only [pyFuel, rv_str, reprStr]
    simp only [List.length_cons, List.length_append]
    omega
  | .pyList xs => by
    have h := elemsFuel_le xs
    simp only [pyFuel, rv_list, List.length_cons, List.length_append,
      List.length_singleton]
    cases xs with
    | nil => simp [elemsFuel]
    | cons v more =>
      have hp := pyFuel_pos v
      simp only [elemsFuel] at h ⊢
      omega
  | .pyDict xs => by
    have h := entriesFuel_le xs
    simp only [pyFuel, rv_dict, List.length_cons, List.length_append,
      List.length_singleton]
    cases xs with
    | nil => simp [entriesFuel]
    | cons e more =>
      simp only [entriesFuel] at h ⊢
      omega

theorem elemsFuel_le : ∀ xs : List PyVal,
    elemsFuel xs ≤ 2 * (renderElems xs).length + 2
  | [] => by simp [elemsFuel]
  | [v] => by
    have := pyFuel_le v
    simp only [elemsFuel, re_single]
    omega
  | v :: w :: more => by
    have h1 := pyFuel_le v
    have h2 := elemsFuel_le (w :: more)
    simp only [elemsFuel] at h2 ⊢
    simp only [re_cons, List.length_append, List.length_cons]
    omega

theorem entriesFuel_le : ∀ xs : List (String × PyVal),
    entriesFuel xs ≤ 2 * (renderEntries xs).length + 2
  | [] => by simp [entriesFuel]
  | [(k, v)] => by
    have := pyFuel_le v
    have hk : (reprStr k).length ≥ 2 := by
      simp only [reprStr, List.length_cons, List.length_append,
        List.length_singleton]
      omega
    simp only [entriesFuel, rent_single, List.length_append, List.length_cons]
    omega
  | (k, v) :: e :: more => by
    have h1 := pyFuel_le v
    have h2 := entriesFuel_le (e :: more)
    obtain ⟨k2, v2⟩ := e
    simp only [entriesFuel] at h2 ⊢
    simp only [rent_cons, List.length_append, List.length_cons]
    omega

end

/-! ## C2 -/

theorem ungz0Chars_flat (l : List Char) :
    ungz0Chars (l.flatMap fun c =>
      [c.toNat / 65536, c.toNat / 256 % 256, c.toNat % 256]) = l := by
  induction l with
  | nil => rfl
  | cons c r ih =>
    rw [List.flatMap_cons, List.cons_append, List.cons_append, List.cons_append,
      List.nil_append]
    rw [show ∀ x y z w, ungz0Chars (x :: y :: z :: w) =
      Char.ofNat (x * 65536 + y * 256 + z) :: ungz0Chars w from fun _ _ _ _ => rfl]
    rw [ih]
    have h := char_toNat_lt c
    have e : c.toNat / 65536 * 65536 + c.toNat / 256 % 256 * 256 + c.toNat % 256 =
        c.toNat := by omega
    rw [e, Char.ofNat_toNat]

theorem ungz0_gz0 (s : String) : ungz0 (gz0 s) = s := by
  obtain ⟨l⟩ := s
  show String.mk (ungz0Chars (l.flatMap _)) = _
  rw [ungz0Chars_flat]

theorem gz0_bytes_lt (s : String) : ∀ b ∈ gz0 s, b < 256 := by
  intro b hb
  unfold gz0 at hb
  rw [List.mem_flatMap] at hb
  obtain ⟨c, _, hc⟩ := hb
  have := char_toNat_lt c
  simp only [List.mem_cons, List.mem_singleton, List.not_mem_nil, or_false] at hc
  rcases hc with h | h | h <;> subst h <;> omega

/-- C2: decoding the encoded string returned by `build` — base64
decode, decompress via the inverse `ungz` of the compression stage
`gz`, parse the canonical text — reproduces the assembled document
`mainDict`. -/
theorem c2_build_roundtrip (gz : String → List Nat) (ungz : List Nat → String)
    (hgz : ∀ s, ungz (gz s) = s) (hbytes : ∀ s, ∀ b ∈ gz s, b < 256)
    (td : TagData) (t : DFTemplate) (code name : String)
    (hbuild : DFTemplate.build gz td t = .ok (code, name)) :
    decodeTemplate ungz code = some (mainDict td t) := by
  unfold DFTemplate.build at hbuild
  cases hd : deriveName (buildBlocks td t) with
  | error e => rw [hd] at hbuild; exact absurd hbuild (by simp)
  | ok nm =>
    rw [hd] at hbuild
    simp only [Except.ok.injEq, Prod.mk.injEq] at hbuild
    obtain ⟨hcode, _⟩ := hbuild
    subst hcode
    unfold decodeTemplate compress
    rw [show (String.mk (b64encode
        (gz (String.mk (renderVal (mainDict td t)))))).data =
      b64encode (gz (String.mk (renderVal (mainDict td t)))) from rfl]
    rw [b64decode_b64encode _ (hbytes _)]
    show parseDoc (ungz (gz (String.mk (renderVal (mainDict td t))))) = _
    rw [hgz]
    unfold parseDoc
    rw [show (String.mk (renderVal (mainDict td t))).data =
      renderVal (mainDict td t) from rfl]
    have hp := (parse_render (2 * (renderVal (mainDict td t)).length + 1)).1
      (mainDict td t) [] (by have := pyFuel_le (mainDict td t); omega) ndh_nil
    rw [List.append_nil] at hp
    rw [hp]

/-- Witness for `c2_build_roundtrip`: the one-block template
`playerEvent('Join')` under the concrete invertible compression pair
`gz0`/`ungz0`. -/
theorem c2_build_roundtrip_witness :
    decodeTemplate ungz0 wC2Code = some (mainDict tdEmpty wC2T) :=
  c2_build_roundtrip gz0 ungz0 ungz0_gz0 gz0_bytes_lt tdEmpty wC2T wC2Code
    "event_Join" rfl

end DFPyre
